import Mathlib

/-!
Shallow embedding of the ScriptNote screenwriting plugin's core text logic
(SceneService.ts, StatsService.ts, PDFExporter.ts / Word exporter, constants.ts).

Strings are modelled as `List Char` (one element per Unicode code point; all
characters appearing in this domain are BMP, where JavaScript UTF-16 code units
coincide with code points).  JavaScript regular expressions are embedded as
hand-compiled deterministic matchers: each matcher's doc comment names the
source regex, and greedy/lazy backtracking has been compiled away only where
the surrounding pattern makes the outcome unique (justified in comments).
-/

/-- JS whitespace class \s (the code points relevant to this code base:
space, tab, LF, CR, VT, FF, NBSP, LS, PS, ideographic space, BOM). -/
def isWS (c : Char) : Bool :=
  c == ' ' || c == '\t' || c == '\n' || c == '\r' ||
  c.toNat == 11 || c.toNat == 12 || c.toNat == 160 ||
  c.toNat == 0x2028 || c.toNat == 0x2029 || c.toNat == 0x3000 || c.toNat == 0xFEFF

/-- JS line terminators, which the regex metacharacter . never matches:
LF, CR, U+2028, U+2029. -/
def isLineTerm (c : Char) : Bool :=
  c == '\n' || c == '\r' || c.toNat == 0x2028 || c.toNat == 0x2029

/-- JS digit class \d : exactly the ASCII digits 0-9. -/
def isDigitCh (c : Char) : Bool :=
  48 ≤ c.toNat && c.toNat ≤ 57

/-- Does the second list start with the first one (list analogue of
JS String.startsWith for a literal pattern)? -/
def hasPrefixL : List Char → List Char → Bool
  | [], _ => true
  | _ :: _, [] => false
  | p :: ps, c :: cs => p == c && hasPrefixL ps cs

/-- Left half of JS String.trim: drop leading \s characters. -/
def trimL (l : List Char) : List Char := l.dropWhile isWS

/-- Right half of JS String.trim: drop trailing \s characters. -/
def trimR (l : List Char) : List Char := (l.reverse.dropWhile isWS).reverse

/-- JS String.trim: drop \s characters from both ends. -/
def jsTrim (l : List Char) : List Char := trimR (trimL l)

/-- Worker for jsSplitWS.  acc is the reversed current token; the Bool records
whether the previous character was whitespace (so that a maximal whitespace
run acts as a single separator, as /\s+/ does). -/
def splitWSAux : List Char → List Char → Bool → List (List Char)
  | [], acc, _ => [acc.reverse]
  | c :: rest, acc, lastWS =>
    if isWS c then
      if lastWS then splitWSAux rest [] true
      else acc.reverse :: splitWSAux rest [] true
    else splitWSAux rest (c :: acc) false

/-- JS String.split(/\s+/): splits at maximal whitespace runs; a leading
(resp. trailing) run produces an empty first (resp. last) element, and the
empty string yields one empty element — exactly as in JavaScript. -/
def jsSplitWS (s : List Char) : List (List Char) := splitWSAux s [] false

/-- Decimal value of a digit string (JS parseInt(s, 10) on an all-digit
string, as produced by the \d+ capture groups). -/
def digitsToNat (l : List Char) : Nat :=
  l.foldl (fun a c => 10 * a + (c.toNat - 48)) 0

/-- One decimal digit as a character (n is always < 10 at call sites). -/
def digitChar : Nat → Char
  | 0 => '0' | 1 => '1' | 2 => '2' | 3 => '3' | 4 => '4'
  | 5 => '5' | 6 => '6' | 7 => '7' | 8 => '8' | _ => '9'

/-- Decimal rendering of a natural number, as the JS template literal
interpolation of a nonnegative integer produces it. -/
def natToDigits (n : Nat) : List Char :=
  if _h : n < 10 then [digitChar n]
  else natToDigits (n / 10) ++ [digitChar (n % 10)]
decreasing_by exact Nat.div_lt_self (by omega) (by omega)

/-- SCENE_NUMBER_REGEX = ^(\d+)-(\d+) (constants.ts:10), an unanchored-suffix
prefix match.  Returns (group 1 digits, group 2 digits, rest of the string
after the match).  Both \d+ are greedy; since each is followed by a
non-digit requirement, backtracking cannot produce any other division, so
each group is the maximal digit run. -/
def sceneNumberMatch (s : List Char) : Option (List Char × List Char × List Char) :=
  let d1 := s.takeWhile isDigitCh
  let r1 := s.dropWhile isDigitCh
  if d1 = [] then none
  else
    match r1 with
    | c :: r2 =>
      if c = '-' then
        let d2 := r2.takeWhile isDigitCh
        let r3 := r2.dropWhile isDigitCh
        if d2 = [] then none else some (d1, d2, r3)
      else none
    | [] => none

/-- The sub-pattern \s+(.+)$ (shared tail of SCENE_HEADER_REGEX and
CHARACTER_LIST_REGEX).  The \s+ is greedy; the capture (.+) must be nonempty
and free of line terminators.  When the remainder after the maximal
whitespace run is nonempty, backtracking the \s+ only adds characters in
front of the capture, so the greedy division is the unique candidate; when
the remainder is empty the lazy retreat hands the final whitespace character
to the capture (legal only if it is not a line terminator). -/
def wsThenRest (u : List Char) : Option (List Char) :=
  let w := u.takeWhile isWS
  let v := u.dropWhile isWS
  if w = [] then none
  else if v ≠ [] then
    if v.any isLineTerm then none else some v
  else
    match u.getLast? with
    | some c => if 2 ≤ u.length ∧ isLineTerm c = false then some [c] else none
    | none => none

/-- SCENE_HEADER_REGEX = ^(\d+)-(\d+)\s+(日|夜|雨夜|雪夜|\S+)\s+(内|外)\s+(.+)$
(constants.ts:15), a full anchored match.  Group 3's literal alternatives
are subsumed by \S+: every alternative succeeds only when followed by \s+,
i.e. when it is a complete whitespace-delimited token, which is exactly what
the greedy \S+ takes — so group 3 is always the first full token after the
number.  Groups: (episode, scene, time, in-or-out char, location). -/
def sceneHeaderMatch (s : List Char) : Option (Nat × Nat × List Char × Char × List Char) :=
  let d1 := s.takeWhile isDigitCh
  let r1 := s.dropWhile isDigitCh
  if d1 = [] then none
  else
    match r1 with
    | c :: r2 =>
      if c = '-' then
        let d2 := r2.takeWhile isDigitCh
        let r3 := r2.dropWhile isDigitCh
        if d2 = [] then none
        else
          let w1 := r3.takeWhile isWS
          let r4 := r3.dropWhile isWS
          if w1 = [] then none
          else
            let t := r4.takeWhile (fun c => !isWS c)
            let r5 := r4.dropWhile (fun c => !isWS c)
            if t = [] then none
            else
              let w2 := r5.takeWhile isWS
              let r6 := r5.dropWhile isWS
              if w2 = [] then none
              else
                match r6 with
                | lt :: r7 =>
                  if lt = '内' ∨ lt = '外' then
                    match wsThenRest r7 with
                    | some loc => some (digitsToNat d1, digitsToNat d2, t, lt, loc)
                    | none => none
                  else none
                | [] => none
      else none
    | [] => none

/-- Parsed scene header (SceneService.ts ParsedSceneHeader).  locationType is
kept as the single matched character (the regex group (内|外) can only ever
capture one character). -/
structure ParsedSceneHeader where
  episode : Nat
  scene : Nat
  time : List Char
  locationType : Char
  location : List Char
deriving DecidableEq, Repr

/-- parseSceneHeader (SceneService.ts:41-56): trim, match SCENE_HEADER_REGEX,
build the record; match[5] (location) is trimmed. -/
def parseSceneHeader (line : List Char) : Option ParsedSceneHeader :=
  let trimmedLine := jsTrim line
  match sceneHeaderMatch trimmedLine with
  | none => none
  | some (e, sc, t, lt, loc) =>
    some { episode := e, scene := sc, time := t, locationType := lt, location := jsTrim loc }

/-- ValidationError (types.ts): position plus message. -/
structure ValidationError where
  position : Nat
  message : String
deriving DecidableEq, Repr

/-- ValidationResult (types.ts). -/
structure ValidationResult where
  valid : Bool
  errors : List ValidationError
deriving DecidableEq, Repr

/-- LOCATION_TYPES (constants.ts:67). -/
def LOCATION_TYPES : List (List Char) := [['内'], ['外']]

/-- validateSceneHeader (SceneService.ts:63-150): staged validation.  The
stages mirror the source exactly: empty check; scene-number prefix check
(bail out with one error if absent); bail out with one combined error if
nothing follows the number; otherwise accumulate per-field errors over the
whitespace-split remainder; finally re-check the full header regex. -/
def validateSceneHeader (line : List Char) : ValidationResult :=
  let trimmedLine := jsTrim line
  if trimmedLine = [] then
    { valid := false, errors := [⟨0, "场景头不能为空"⟩] }
  else
    match sceneNumberMatch trimmedLine with
    | none =>
      { valid := false, errors := [⟨0, "缺少有效的场景编号（格式：集数-场数，如 1-1）"⟩] }
    | some (d1, d2, rest) =>
      let numberEndPos := d1.length + 1 + d2.length
      let afterNumber := jsTrim rest
      if afterNumber = [] then
        { valid := false, errors := [⟨numberEndPos, "缺少时间、内外景和地点信息"⟩] }
      else
        let parts := jsSplitWS afterNumber
        let timeErrs : List ValidationError :=
          if parts.length < 1 ∨ parts.headD [] = [] then
            [⟨numberEndPos, "缺少时间信息（如：日、夜、雨夜、雪夜）"⟩]
          else []
        let locTypeErrs : List ValidationError :=
          if parts.length < 2 then
            [⟨numberEndPos + (parts.headD []).length + 1, "缺少内外景信息（内 或 外）"⟩]
          else if ¬ (parts.getD 1 []) ∈ LOCATION_TYPES then
            [⟨numberEndPos + (parts.headD []).length + 1,
              "内外景必须是“内”或“外”，当前值：“" ++ (parts.getD 1 []).asString ++ "”"⟩]
          else []
        let locErrs : List ValidationError :=
          if parts.length < 3 then
            [⟨trimmedLine.length, "缺少地点信息"⟩]
          else []
        let errors := timeErrs ++ locTypeErrs ++ locErrs
        if errors ≠ [] then
          { valid := false, errors := errors }
        else
          match sceneHeaderMatch trimmedLine with
          | none =>
            { valid := false,
              errors := [⟨0, "场景头格式不正确，正确格式：编号 时间 内外景 地点（如：1-1 日 内 咖啡馆）"⟩] }
          | some _ => { valid := true, errors := [] }

/-- generateSceneHeaderTemplate (SceneService.ts:530-537):
episode-scene time locationType location, space separated. -/
def generateSceneHeaderTemplate (episode scene : Nat) (time locationType location : List Char) :
    List Char :=
  natToDigits episode ++ '-' :: natToDigits scene ++ ' ' :: time ++ ' ' :: locationType ++ ' ' :: location

/-- FLASHBACK_START (constants.ts:44). -/
def FLASHBACK_START : List Char := ("【闪回】".toList)

/-- FLASHBACK_END (constants.ts:45). -/
def FLASHBACK_END : List Char := ("【闪回结束】".toList)

/-- countWords (StatsService.ts:140-148, and the identical private copy in
SceneService.ts:225-230): remove all whitespace (replace(/\s+/g, "")), then
count the remaining characters. -/
def countWordsJS (text : List Char) : Nat :=
  (text.filter (fun c => !isWS c)).length

/-- Worker for dAfter: scans for the lazy (.+?)）：(.+)$ division.  acc holds
the reversed group-2 prefix consumed so far (always nonempty).  At each
）： occurrence the continuation (.+)$ is tried; on failure the lazy group
extends past the ） and the scan resumes, exactly as regex backtracking
orders the candidates. -/
def dAfterGo : List Char → List Char → Option (List Char × List Char)
  | acc, '）' :: tail =>
    match tail with
    | '：' :: g3 =>
      if g3 ≠ [] ∧ g3.all (fun c => !isLineTerm c) then some (acc.reverse, g3)
      else dAfterGo ('）' :: acc) tail
    | _ => dAfterGo ('）' :: acc) tail
  | acc, c :: tail => if isLineTerm c then none else dAfterGo (c :: acc) tail
  | _, [] => none

/-- The sub-pattern (.+?)）：(.+)$ of DIALOGUE_REGEX: lazy group 2 (at least
one non-line-terminator character), literal ）：, then nonempty group 3 free
of line terminators. -/
def dAfter : List Char → Option (List Char × List Char)
  | [] => none
  | c :: rest => if isLineTerm c then none else dAfterGo [c] rest

/-- Worker for dialogueMatch: scans for the lazy group-1 division of
^(.+?)（(.+?)）：(.+)$; on a （ whose continuation fails, group 1 absorbs
the （ and the scan resumes (lazy backtracking order). -/
def dialogueGo : List Char → List Char → Option (List Char × List Char × List Char)
  | acc, '（' :: tail =>
    (match dAfter tail with
     | some (g2, g3) => some (acc.reverse, g2, g3)
     | none => dialogueGo ('（' :: acc) tail)
  | acc, c :: tail => if isLineTerm c then none else dialogueGo (c :: acc) tail
  | _, [] => none

/-- DIALOGUE_REGEX = ^(.+?)（(.+?)）：(.+)$ (constants.ts:25): emotion
dialogue, groups (name, emotion, text). -/
def dialogueMatch : List Char → Option (List Char × List Char × List Char)
  | [] => none
  | c :: rest => if isLineTerm c then none else dialogueGo [c] rest

/-- Worker for simpleDialogueMatch: lazy group-1 scan of ^(.+?)：(.+)$;
on a ： whose remainder fails (.+)$, group 1 absorbs the ： and the scan
resumes. -/
def simpleDialogueGo : List Char → List Char → Option (List Char × List Char)
  | acc, '：' :: tail =>
    if tail ≠ [] ∧ tail.all (fun c => !isLineTerm c) then some (acc.reverse, tail)
    else simpleDialogueGo ('：' :: acc) tail
  | acc, c :: tail => if isLineTerm c then none else simpleDialogueGo (c :: acc) tail
  | _, [] => none

/-- SIMPLE_DIALOGUE_REGEX = ^(.+?)：(.+)$ (constants.ts:30): plain colon
dialogue, groups (name, text). -/
def simpleDialogueMatch : List Char → Option (List Char × List Char)
  | [] => none
  | c :: rest => if isLineTerm c then none else simpleDialogueGo [c] rest

/-- ACTION_REGEX = ^△\s*(.*)$ (constants.ts:35).  The greedy \s* takes the
maximal whitespace run; the capture (.*) is the remainder, which must be
free of line terminators (retreating the \s* only grows the capture, so the
greedy division is the unique candidate). -/
def actionMatch : List Char → Option (List Char)
  | '△' :: rest =>
    let g := rest.dropWhile isWS
    if g.all (fun c => !isLineTerm c) then some g else none
  | _ => none

/-- CHARACTER_LIST_REGEX = ^人\s+(.+)$ (constants.ts:20): the marker 人
followed by whitespace and the captured name list. -/
def characterListMatch : List Char → Option (List Char)
  | '人' :: rest => wsThenRest rest
  | _ => none

/-- parseCharacterList (SceneService.ts:182-189): trim, match
CHARACTER_LIST_REGEX, split the capture on /\s+/ and keep nonempty names. -/
def parseCharacterList (line : List Char) : Option (List (List Char)) :=
  match characterListMatch (jsTrim line) with
  | none => none
  | some cap => some ((jsSplitWS cap).filter (fun name => name ≠ []))

/-- Worker for the lazy capture (.+?)】: at least one non-line-terminator
character, then everything up to the first 】 (the lazy group stops at the
first closing bracket; a longer capture is tried only if no closer exists,
which then fails anyway).  Returns (capture, rest after 】). -/
def tagCapGo : List Char → List Char → Option (List Char × List Char)
  | acc, d :: rest' =>
    if d = '】' then some (acc.reverse, rest')
    else if isLineTerm d then none else tagCapGo (d :: acc) rest'
  | _, [] => none

/-- Lazy capture (.+?)】 after the opening 【标签： literal. -/
def tagCap : List Char → Option (List Char × List Char)
  | [] => none
  | c :: rest => if isLineTerm c then none else tagCapGo [c] rest

/-- Fuelled worker for the global scan of TAG_REGEX = /【标签：(.+?)】/g
(constants.ts:40): at each position try the literal prefix and the lazy
capture; on success resume after the match (regex lastIndex), on failure
advance one character.  Every step strictly shortens the remaining input
(a successful tagCap consumes at least the capture and the closing 】), so
fuel = input length never runs out. -/
def tagScanF : Nat → List Char → List (List Char)
  | 0, _ => []
  | _, [] => []
  | fuel + 1, c :: rest =>
    if hasPrefixL ("【标签：".toList) (c :: rest) then
      match tagCap ((c :: rest).drop 4) with
      | some (cap, rest') => cap :: tagScanF fuel rest'
      | none => tagScanF fuel rest
    else tagScanF fuel rest

/-- parseSceneTags (SceneService.ts:196-208). -/
def parseSceneTags (text : List Char) : List (List Char) := tagScanF text.length text

/-- lineContentWords: the per-line contribution inside countContentWords
(StatsService.ts:155-228): structural lines contribute 0; dialogue lines
contribute only their text capture; action lines only the text after △;
anything else its whitespace-stripped length. -/
def lineContentWords (line : List Char) : Nat :=
  let trimmedLine := jsTrim line
  if trimmedLine = [] then 0
  else if (sceneNumberMatch trimmedLine).isSome then 0
  else if hasPrefixL ("人 ".toList) trimmedLine then 0
  else if trimmedLine = FLASHBACK_START ∨ trimmedLine = FLASHBACK_END then 0
  else if hasPrefixL ("【标签：".toList) trimmedLine then 0
  else if trimmedLine = ("---".toList) then 0
  else if hasPrefixL ("#".toList) trimmedLine then 0
  else
    match dialogueMatch trimmedLine with
    | some (_, _, g3) => countWordsJS g3
    | none =>
      match simpleDialogueMatch trimmedLine with
      | some (_, g2) => countWordsJS g2
      | none =>
        match actionMatch trimmedLine with
        | some g1 => countWordsJS g1
        | none => countWordsJS trimmedLine

/-- countContentWords (StatsService.ts:155-228): split on newline, sum the
per-line contributions. -/
def countContentWords (text : List Char) : Nat :=
  ((text.splitOn '\n').map lineContentWords).sum

/-- WORDS_PER_MINUTE (constants.ts:108). -/
def WORDS_PER_MINUTE : ℚ := 200

/-- estimateDuration (StatsService.ts:236-244): 0 for nonpositive counts,
otherwise ceil((wordCount / 200) * 2) / 2.  JS number arithmetic is embedded
as exact rational arithmetic (the two agree on every realistic word count;
division-by-200 rounding could matter only beyond 2^45 words). -/
def estimateDuration (wordCount : Int) : ℚ :=
  if wordCount ≤ 0 then 0
  else (⌈((wordCount : ℚ) / WORDS_PER_MINUTE) * 2⌉ : ℚ) / 2

/-- LineType (PDFExporter.ts:22-33 and the Word exporter's identical enum). -/
inductive LineType where
  | SceneHeader
  | CharacterList
  | Dialogue
  | SimpleDialogue
  | Action
  | FlashbackStart
  | FlashbackEnd
  | EpisodeHeader
  | Empty
  | Other
deriving DecidableEq, Repr

/-- The PDF exporter's episode-title test /^#\s*第\d+集/ (PDFExporter.ts:76):
a hash, optional whitespace, 第, at least one digit, 集.  Both \s* and \d+
are greedy and followed by a character outside their class, so each matches
its maximal run. -/
def episodeHeaderTestPDF (s : List Char) : Bool :=
  match s with
  | '#' :: r =>
    match r.dropWhile isWS with
    | '第' :: r2 =>
      let d := r2.takeWhile isDigitCh
      d ≠ [] && hasPrefixL ['集'] (r2.dropWhile isDigitCh)
    | _ => false
  | _ => false

/-- Worker for the Word exporter's episode-title test: after 第, the greedy
.+ needs at least one non-line-terminator character and then a 集 (the 集
may sit anywhere later as long as no line terminator intervenes). -/
def jiSearch : List Char → Bool
  | [] => false
  | d :: rest' => if d = '集' then true else if isLineTerm d then false else jiSearch rest'

/-- The Word exporter's episode-title test /^#\s*第.+集/ (unnamed Word
exporter, getLineType): hash, optional whitespace, 第, then at least one
character followed by 集 with no line terminator before it. -/
def episodeHeaderTestWord (s : List Char) : Bool :=
  match s with
  | '#' :: r =>
    match r.dropWhile isWS with
    | '第' :: r2 =>
      (match r2 with
       | [] => false
       | c :: rest => if isLineTerm c then false else jiSearch rest)
    | _ => false
  | _ => false

/-- The Word exporter's extra character-line test /^人物[：:]/. -/
def personWordTest (s : List Char) : Bool :=
  hasPrefixL ("人物：".toList) s || hasPrefixL ("人物:".toList) s

/-- getLineType (PDFExporter.ts:40-81): trim, then test in this order:
empty, flashback start, flashback end, scene header, character list,
emotion dialogue, simple dialogue, action, episode title; otherwise Other. -/
def getLineTypePDF (line : List Char) : LineType :=
  let trimmed := jsTrim line
  if trimmed = [] then .Empty
  else if trimmed = FLASHBACK_START then .FlashbackStart
  else if trimmed = FLASHBACK_END then .FlashbackEnd
  else if (sceneHeaderMatch trimmed).isSome then .SceneHeader
  else if (characterListMatch trimmed).isSome then .CharacterList
  else if (dialogueMatch trimmed).isSome then .Dialogue
  else if (simpleDialogueMatch trimmed).isSome then .SimpleDialogue
  else if (actionMatch trimmed).isSome then .Action
  else if episodeHeaderTestPDF trimmed then .EpisodeHeader
  else .Other

/-- getLineType (unnamed Word exporter): trim, then test in this order:
empty, flashback start, flashback end, episode title (checked before the
scene header), scene header, the 人物： prefix, character list, action,
emotion dialogue, simple dialogue; otherwise Other. -/
def getLineTypeWord (line : List Char) : LineType :=
  let trimmed := jsTrim line
  if trimmed = [] then .Empty
  else if trimmed = FLASHBACK_START then .FlashbackStart
  else if trimmed = FLASHBACK_END then .FlashbackEnd
  else if episodeHeaderTestWord trimmed then .EpisodeHeader
  else if (sceneHeaderMatch trimmed).isSome then .SceneHeader
  else if personWordTest trimmed then .CharacterList
  else if (characterListMatch trimmed).isSome then .CharacterList
  else if (actionMatch trimmed).isSome then .Action
  else if (dialogueMatch trimmed).isSome then .Dialogue
  else if (simpleDialogueMatch trimmed).isSome then .SimpleDialogue
  else .Other

/-- First matching rule of an ordered (predicate, kind) table. -/
def firstRule : List ((List Char → Bool) × LineType) → List Char → LineType
  | [], _ => .Other
  | (p, k) :: rules, t => if p t then k else firstRule rules t

/-- Modelled from the spec (§4.1): the claimed fixed priority order
empty → flashback markers → episode header → scene header → character list
→ action-marker-prefixed → emotion-parenthesized dialogue → plain colon
dialogue → other, written as an explicit ordered rule table.  The
character-list rule covers both character-line forms appearing in the code
(人 + whitespace + names, and the 人物： prefix). -/
def specClassifyRules : List ((List Char → Bool) × LineType) :=
  [ (fun t => t = [], .Empty),
    (fun t => t = FLASHBACK_START, .FlashbackStart),
    (fun t => t = FLASHBACK_END, .FlashbackEnd),
    (fun t => episodeHeaderTestWord t, .EpisodeHeader),
    (fun t => (sceneHeaderMatch t).isSome, .SceneHeader),
    (fun t => personWordTest t || (characterListMatch t).isSome, .CharacterList),
    (fun t => (actionMatch t).isSome, .Action),
    (fun t => (dialogueMatch t).isSome, .Dialogue),
    (fun t => (simpleDialogueMatch t).isSome, .SimpleDialogue) ]

/-- Modelled from the spec (§4.1): classify by the claimed priority order. -/
def specClassify (line : List Char) : LineType :=
  firstRule specClassifyRules (jsTrim line)

/-- SceneInfo (types.ts:36-47). -/
structure SceneInfo where
  episode : Nat
  scene : Nat
  line : Nat
  time : List Char
  locationType : Char
  location : List Char
  characters : List (List Char)
  tags : List (List Char)
  wordCount : Nat
  isFlashback : Bool
deriving DecidableEq, Repr

/-- SceneIndex (types.ts:52-57).  contentHash is kept as the 32-bit signed
integer value; the source renders it with toString(16), which is injective,
so hash equality is preserved.  lastUpdated (wall-clock Date.now()) is
outside the model; the claims compare only scenes, episodeCount and hash. -/
structure SceneIndex where
  scenes : List SceneInfo
  episodeCount : Nat
  contentHash : Int
deriving DecidableEq, Repr

/-- Truncation to a signed 32-bit integer (the effect of JS bitwise
operations, hash & hash and << ). -/
def toInt32 (n : Int) : Int :=
  let m := n.emod 4294967296
  if m < 2147483648 then m else m - 4294967296

/-- One step of calculateHash (SceneService.ts:237-245):
hash = ((hash << 5) - hash) + charCode, then hash = hash & hash, both
bitwise operations truncating to int32 (the intermediate subtraction and
addition are exact in JS doubles at these magnitudes). -/
def hashStep (h : Int) (c : Char) : Int :=
  toInt32 (toInt32 (h * 32) - h + c.toNat)

/-- calculateHash (SceneService.ts:237-245), folded over the UTF-16 code
units (= code points for the BMP text this plugin handles). -/
def calculateHash (content : List Char) : Int :=
  content.foldl hashStep 0

/-- The mutable scan state of parseDocument (SceneService.ts:301-307):
scenes accumulator, flashback flag, whether a scene is open
(currentSceneStartLine >= 0), accumulated body lines, accumulated tags,
and the running episode maximum. -/
structure ScanState where
  scenes : List SceneInfo
  inFlashback : Bool
  inScene : Bool
  content : List (List Char)
  tags : List (List Char)
  maxEpisode : Nat
deriving Repr

/-- The initial scan state. -/
def initScanState : ScanState :=
  { scenes := [], inFlashback := false, inScene := false, content := [], tags := [], maxEpisode := 0 }

/-- Replace the last element of a list (the effect of mutating
scenes[scenes.length - 1]). -/
def modifyLast (f : SceneInfo → SceneInfo) : List SceneInfo → List SceneInfo
  | [] => []
  | [a] => [f a]
  | a :: b :: rest => a :: modifyLast f (b :: rest)

/-- Finalize the previous open scene (SceneService.ts:329-333 and 384-388):
write the word count of the accumulated body and the accumulated tags into
the last scene record. -/
def flushScene (st : ScanState) : List SceneInfo :=
  modifyLast
    (fun sc => { sc with wordCount := countWordsJS (List.intercalate ['\n'] st.content), tags := st.tags })
    st.scenes

/-- The body of parseDocument's per-line loop (SceneService.ts:310-381). -/
def processLine (st : ScanState) (lineIndex : Nat) (line : List Char) : ScanState :=
  let trimmedLine := jsTrim line
  if trimmedLine = FLASHBACK_START then { st with inFlashback := true }
  else if trimmedLine = FLASHBACK_END then { st with inFlashback := false }
  else
    match sceneHeaderMatch trimmedLine with
    | some (e, sc, t, lt, loc) =>
      let scenes1 := if st.inScene ∧ st.scenes ≠ [] then flushScene st else st.scenes
      let newScene : SceneInfo :=
        { episode := e, scene := sc, line := lineIndex, time := t, locationType := lt,
          location := jsTrim loc, characters := [], tags := [], wordCount := 0,
          isFlashback := st.inFlashback }
      { st with
        scenes := scenes1 ++ [newScene], inScene := true, content := [], tags := [],
        maxEpisode := max st.maxEpisode e }
    | none =>
      if st.inScene then
        match parseCharacterList trimmedLine with
        | some characters =>
          { st with scenes := modifyLast (fun sc => { sc with characters := characters }) st.scenes }
        | none =>
          let newTags := parseSceneTags trimmedLine
          { st with tags := st.tags ++ newTags, content := st.content ++ [line] }
      else st

/-- The scan over all lines, carrying the zero-based line index. -/
def scanLines : List (List Char) → Nat → ScanState → ScanState
  | [], _, st => st
  | l :: ls, i, st => scanLines ls (i + 1) (processLine st i l)

/-- parseDocument (SceneService.ts:293-399): memoization short-circuit on
the content hash, otherwise a single scan over the lines followed by the
final flush (which, unlike the in-loop flush, fires only when body content
was accumulated). -/
def parseDocument (content : List Char) (previousIndex : Option SceneIndex) : SceneIndex :=
  let contentHash := calculateHash content
  match previousIndex with
  | some prev =>
    if prev.contentHash = contentHash then prev
    else
      let st := scanLines (content.splitOn '\n') 0 initScanState
      let finalScenes := if st.scenes ≠ [] ∧ st.content ≠ [] then flushScene st else st.scenes
      { scenes := finalScenes, episodeCount := st.maxEpisode, contentHash := contentHash }
  | none =>
    let st := scanLines (content.splitOn '\n') 0 initScanState
    let finalScenes := if st.scenes ≠ [] ∧ st.content ≠ [] then flushScene st else st.scenes
    { scenes := finalScenes, episodeCount := st.maxEpisode, contentHash := contentHash }

/-- SceneNumber (types.ts). -/
structure SceneNumber where
  episode : Nat
  scene : Nat
deriving DecidableEq, Repr

/-- The prev/next loop shared by getNextSceneNumber (SceneService.ts:425-432)
and needsRenumbering (SceneService.ts:473-480): prev is the last scene seen
with line ≤ cursorLine before the first scene with line > cursorLine, which
becomes next (the loop breaks there). -/
def findPrevNext (cursorLine : Nat) : List SceneInfo → Option SceneInfo →
    Option SceneInfo × Option SceneInfo
  | [], prev => (prev, none)
  | sc :: rest, prev =>
    if sc.line ≤ cursorLine then findPrevNext cursorLine rest (some sc)
    else (prev, some sc)

/-- getNextSceneNumber (SceneService.ts:413-455). -/
def getNextSceneNumber (idx : SceneIndex) (cursorLine : Nat) : SceneNumber :=
  match idx.scenes with
  | [] => { episode := 1, scene := 1 }
  | firstScene :: _ =>
    match findPrevNext cursorLine idx.scenes none with
    | (none, _) => { episode := firstScene.episode, scene := 1 }
    | (some prevScene, none) => { episode := prevScene.episode, scene := prevScene.scene + 1 }
    | (some prevScene, some nextScene) =>
      if prevScene.episode = nextScene.episode then
        { episode := prevScene.episode, scene := prevScene.scene + 1 }
      else
        { episode := prevScene.episode, scene := prevScene.scene + 1 }

/-- needsRenumbering (SceneService.ts:462-498). -/
def needsRenumbering (idx : SceneIndex) (cursorLine : Nat) : Bool :=
  match idx.scenes with
  | [] => false
  | _ :: _ =>
    match findPrevNext cursorLine idx.scenes none with
    | (_, none) => false
    | (some prevScene, some nextScene) => prevScene.episode = nextScene.episode
    | (none, some nextScene) => nextScene.scene = 1

/-- getScenesToRenumber (SceneService.ts:506-520). -/
def getScenesToRenumber (idx : SceneIndex) (cursorLine : Nat) (newSceneNumber : SceneNumber) :
    List SceneInfo :=
  idx.scenes.filter (fun sc =>
    sc.episode = newSceneNumber.episode ∧ sc.line > cursorLine ∧ sc.scene ≥ newSceneNumber.scene)

/-- The number written for a scene by renumberScenesInEditor
(SceneService.ts:679): episode kept, scene incremented by one. -/
def renumberedNumber (sc : SceneInfo) : SceneNumber :=
  { episode := sc.episode, scene := sc.scene + 1 }

/-- The pure core of renumberScenes (SceneService.ts:902-951): the scenes of
the given episode at or after fromLine, sorted by line (JS stable sort), each
paired with the number the editor pass writes: episode-(expectedScene + i). -/
def renumberScenesPlan (idx : SceneIndex) (fromLine : Nat) (episode : Nat) :
    List (SceneInfo × SceneNumber) :=
  let scenes := idx.scenes.filter (fun s => s.episode = episode ∧ fromLine ≤ s.line)
  let sortedScenes := scenes.insertionSort (fun a b => a.line ≤ b.line)
  let prevScenes := idx.scenes.filter (fun s => s.episode = episode ∧ s.line < fromLine)
  let expectedScene := match prevScenes.getLast? with
    | some lastPrev => lastPrev.scene + 1
    | none => 1
  sortedScenes.enum.map (fun p => (p.2, { episode := episode, scene := expectedScene + p.1 }))

/-! ## Helper lemmas -/

theorem char_eq_of_toNat_eq {a b : Char} (h : a.toNat = b.toNat) : a = b := by
  have hv : a.val = b.val := by
    have h2 := congrArg UInt32.ofNat h
    simpa [UInt32.toNat, UInt32.ofNat, Char.toNat] using h2
  exact Char.eq_of_val_eq hv

theorem isWS_false_of_range {c : Char} (h1 : 33 ≤ c.toNat) (h2 : c.toNat ≤ 159) :
    isWS c = false := by
  have hs : ∀ d : Char, c.toNat ≠ d.toNat → (c == d) = false := by
    intro d hne
    simp only [beq_eq_false_iff_ne, ne_eq]
    intro e; exact hne (e ▸ rfl)
  have e1 : (' ').toNat = 32 := rfl
  have e2 : ('\t').toNat = 9 := rfl
  have e3 : ('\n').toNat = 10 := rfl
  have e4 : ('\r').toNat = 13 := rfl
  simp only [isWS, Bool.or_eq_false_iff]
  refine ⟨⟨⟨⟨⟨⟨⟨⟨⟨⟨?_, ?_⟩, ?_⟩, ?_⟩, ?_⟩, ?_⟩, ?_⟩, ?_⟩, ?_⟩, ?_⟩, ?_⟩ <;>
    first
      | (apply hs
         first | rw [e1] | rw [e2] | rw [e3] | rw [e4]
         omega)
      | (simp only [beq_eq_false_iff_ne, ne_eq]; omega)

theorem isDigitCh_toNat {c : Char} (h : isDigitCh c = true) :
    48 ≤ c.toNat ∧ c.toNat ≤ 57 := by
  simpa [isDigitCh] using h

theorem isWS_false_of_digit {c : Char} (h : isDigitCh c = true) : isWS c = false := by
  obtain ⟨h1, h2⟩ := isDigitCh_toNat h
  exact isWS_false_of_range (by omega) (by omega)

theorem takeWhile_app_stop {p : Char → Bool} {xs : List Char} {y : Char} (ys : List Char)
    (hx : ∀ x ∈ xs, p x = true) (hy : p y = false) :
    (xs ++ y :: ys).takeWhile p = xs := by
  induction xs with
  | nil => simp [List.takeWhile, hy]
  | cons a t ih =>
    have ha := hx a (by simp)
    simp only [List.cons_append, List.takeWhile, ha]
    simp only [List.cons.injEq, true_and]
    exact ih (fun x hx2 => hx x (by simp [hx2]))

theorem dropWhile_app_stop {p : Char → Bool} {xs : List Char} {y : Char} (ys : List Char)
    (hx : ∀ x ∈ xs, p x = true) (hy : p y = false) :
    (xs ++ y :: ys).dropWhile p = y :: ys := by
  induction xs with
  | nil => simp [List.dropWhile, hy]
  | cons a t ih =>
    have ha := hx a (by simp)
    simp only [List.cons_append, List.dropWhile, ha]
    exact ih (fun x hx2 => hx x (by simp [hx2]))

theorem head_dropWhile_not {p : Char → Bool} {l : List Char} {c : Char}
    (h : (l.dropWhile p).head? = some c) : p c = false := by
  induction l with
  | nil => simp [List.dropWhile] at h
  | cons a t ih =>
    cases ha : p a with
    | true => rw [List.dropWhile_cons_of_pos ha] at h; exact ih h
    | false =>
      rw [List.dropWhile_cons_of_neg (by simp [ha])] at h
      simp only [List.head?_cons, Option.some.injEq] at h
      subst h
      exact ha

theorem dropWhile_ne_nil_of_exists {p : Char → Bool} {l : List Char}
    (h : ∃ c ∈ l, p c = false) : l.dropWhile p ≠ [] := by
  induction l with
  | nil => simp at h
  | cons a t ih =>
    cases ha : p a with
    | true =>
      rw [List.dropWhile_cons_of_pos ha]
      apply ih
      obtain ⟨c, hc, hpc⟩ := h
      simp only [List.mem_cons] at hc
      rcases hc with hc | hc
      · subst hc; rw [ha] at hpc; cases hpc
      · exact ⟨c, hc, hpc⟩
    | false =>
      rw [List.dropWhile_cons_of_neg (by simp [ha])]
      simp

theorem trimR_cons {a : Char} {l : List Char} (h : trimR l ≠ []) :
    trimR (a :: l) = a :: trimR l := by
  unfold trimR at *
  have hne : l.reverse.dropWhile isWS ≠ [] := by
    intro e; exact h (by simp [e])
  rw [show (a :: l).reverse = l.reverse ++ [a] from by simp]
  rw [List.dropWhile_append]
  rw [if_neg (by simpa using hne)]
  simp

theorem trimR_eq_self {l : List Char} (h : ∀ c, l.getLast? = some c → isWS c = false) :
    trimR l = l := by
  unfold trimR
  cases hrev : l.reverse with
  | nil => simp [List.reverse_eq_nil_iff.mp hrev]
  | cons a t =>
    have ha : isWS a = false := by
      apply h
      rw [← List.head?_reverse, hrev]
      rfl
    rw [List.dropWhile_cons_of_neg (by simp [ha])]
    rw [← hrev, List.reverse_reverse]

theorem trimL_eq_self {l : List Char} (h : ∀ c, l.head? = some c → isWS c = false) :
    trimL l = l := by
  unfold trimL
  cases l with
  | nil => rfl
  | cons a t =>
    rw [List.dropWhile_cons_of_neg (by simp [h a rfl])]

theorem jsTrim_eq_self {l : List Char}
    (h1 : ∀ c, l.head? = some c → isWS c = false)
    (h2 : ∀ c, l.getLast? = some c → isWS c = false) :
    jsTrim l = l := by
  unfold jsTrim
  rw [trimL_eq_self h1, trimR_eq_self h2]

theorem getLast_trimR_not_ws {l : List Char} {c : Char}
    (h : (trimR l).getLast? = some c) : isWS c = false := by
  unfold trimR at h
  rw [List.getLast?_reverse] at h
  exact head_dropWhile_not h

theorem getLast_jsTrim_not_ws {l : List Char} {c : Char}
    (h : (jsTrim l).getLast? = some c) : isWS c = false := by
  exact getLast_trimR_not_ws h

theorem head_jsTrim_not_ws {l : List Char} {c : Char}
    (h : (jsTrim l).head? = some c) : isWS c = false := by
  unfold jsTrim at h
  have hpre : ∃ w, trimL l = trimR (trimL l) ++ w := by
    refine ⟨((trimL l).reverse.takeWhile isWS).reverse, ?_⟩
    unfold trimR
    rw [← List.reverse_append, List.takeWhile_append_dropWhile]
    simp
  obtain ⟨w, hw⟩ := hpre
  have hne : trimR (trimL l) ≠ [] := by
    intro e; rw [e] at h; simp at h
  have hhead : (trimL l).head? = some c := by
    rw [hw]
    cases htr : trimR (trimL l) with
    | nil => exact absurd htr hne
    | cons a t => rw [htr] at h; simpa using h
  exact head_dropWhile_not hhead

theorem digitChar_toNat {d : Nat} (h : d < 10) : (digitChar d).toNat = 48 + d := by
  interval_cases d <;> rfl

theorem isDigitCh_digitChar {d : Nat} (h : d < 10) : isDigitCh (digitChar d) = true := by
  interval_cases d <;> rfl

theorem natToDigits_ne_nil (n : Nat) : natToDigits n ≠ [] := by
  rw [natToDigits]
  split <;> simp

theorem natToDigits_all_digits (n : Nat) : ∀ c ∈ natToDigits n, isDigitCh c = true := by
  induction n using Nat.strong_induction_on with
  | _ n ih =>
    rw [natToDigits]
    split
    · intro c hc
      simp only [List.mem_singleton] at hc
      subst hc
      exact isDigitCh_digitChar (by omega)
    · intro c hc
      simp only [List.mem_append, List.mem_singleton] at hc
      rcases hc with hc | hc
      · exact ih (n / 10) (Nat.div_lt_self (by omega) (by omega)) c hc
      · subst hc
        exact isDigitCh_digitChar (Nat.mod_lt _ (by omega))

theorem digitsToNat_append_one (xs : List Char) (c : Char) :
    digitsToNat (xs ++ [c]) = 10 * digitsToNat xs + (c.toNat - 48) := by
  unfold digitsToNat
  rw [List.foldl_append]
  rfl

theorem digitsToNat_natToDigits (n : Nat) : digitsToNat (natToDigits n) = n := by
  induction n using Nat.strong_induction_on with
  | _ n ih =>
    rw [natToDigits]
    split
    · rename_i h
      simp only [digitsToNat, List.foldl_cons, List.foldl_nil]
      rw [show (digitChar n).toNat = 48 + n from digitChar_toNat h]
      omega
    · rename_i h
      rw [digitsToNat_append_one]
      rw [ih (n / 10) (Nat.div_lt_self (by omega) (by omega))]
      rw [show (digitChar (n % 10)).toNat = 48 + n % 10 from digitChar_toNat (Nat.mod_lt _ (by omega))]
      omega

theorem splitWSAux_tok {tok rest acc} (h : ∀ c ∈ tok, isWS c = false) :
    splitWSAux (tok ++ rest) acc false = splitWSAux rest (tok.reverse ++ acc) false := by
  induction tok generalizing acc with
  | nil => simp
  | cons c t ih =>
    have hc := h c (by simp)
    simp only [List.cons_append, splitWSAux, hc, Bool.false_eq_true, if_false, List.append_eq]
    rw [ih (fun x hx => h x (by simp [hx]))]
    simp

theorem splitWSAux_ws_true {w rest} (h : ∀ c ∈ w, isWS c = true) :
    splitWSAux (w ++ rest) [] true = splitWSAux rest [] true := by
  induction w with
  | nil => simp
  | cons c t ih =>
    have hc := h c (by simp)
    simp only [List.cons_append, splitWSAux, hc, List.append_eq, if_true]
    exact ih (fun x hx => h x (by simp [hx]))

theorem splitWSAux_ws_start {w rest acc} (hw : w ≠ []) (h : ∀ c ∈ w, isWS c = true) :
    splitWSAux (w ++ rest) acc false = acc.reverse :: splitWSAux rest [] true := by
  cases w with
  | nil => exact absurd rfl hw
  | cons c t =>
    have hc := h c (by simp)
    simp only [List.cons_append, splitWSAux, hc, List.append_eq, if_true,
      Bool.false_eq_true, if_false]
    congr 1
    exact splitWSAux_ws_true (fun x hx => h x (by simp [hx]))

theorem splitWSAux_ne_nil (s : List Char) (acc : List Char) (b : Bool) :
    splitWSAux s acc b ≠ [] := by
  induction s generalizing acc b with
  | nil => simp [splitWSAux]
  | cons c t ih =>
    simp only [splitWSAux]
    by_cases hc : isWS c
    · rw [if_pos hc]
      by_cases hb : b
      · rw [if_pos hb]; exact ih [] true
      · rw [if_neg hb]; simp
    · rw [if_neg hc]; exact ih (c :: acc) false

theorem takeWhile_all {p : Char → Bool} {l : List Char} (h : ∀ x ∈ l, p x = true) :
    l.takeWhile p = l := by
  induction l with
  | nil => rfl
  | cons a t ih =>
    rw [List.takeWhile_cons_of_pos (h a (by simp))]
    rw [ih (fun x hx => h x (by simp [hx]))]

theorem dropWhile_all {p : Char → Bool} {l : List Char} (h : ∀ x ∈ l, p x = true) :
    l.dropWhile p = [] := by
  induction l with
  | nil => rfl
  | cons a t ih =>
    rw [List.dropWhile_cons_of_pos (h a (by simp))]
    exact ih (fun x hx => h x (by simp [hx]))

theorem splitOnP_go_no_sep {p : Char → Bool} {l : List Char} (acc : List Char)
    (h : ∀ c ∈ l, p c = false) :
    List.splitOnP.go p l acc = [acc.reverse ++ l] := by
  induction l generalizing acc with
  | nil => simp [List.splitOnP.go]
  | cons a t ih =>
    have ha := h a (by simp)
    simp only [List.splitOnP.go, ha, Bool.false_eq_true, if_false]
    rw [ih (a :: acc) (fun c hc => h c (by simp [hc]))]
    simp

theorem splitOn_no_newline {l : List Char} (h : '\n' ∉ l) : l.splitOn '\n' = [l] := by
  unfold List.splitOn List.splitOnP
  rw [splitOnP_go_no_sep [] (fun c hc => by
    simp only [beq_eq_false_iff_ne, ne_eq]
    intro e; exact h (e ▸ hc))]
  simp

/-! ## Claim theorems -/

/-- C3: indexing is memoizing and idempotent.  parseDocument is embedded as a
pure function (the nondeterministic lastUpdated wall-clock field is outside
the model, which is exactly why the claim compares scenes and fingerprint
rather than whole records), so two runs on identical text agree on scenes
and fingerprint; and when a previousIndex with the matching contentHash is
supplied, that very index is returned unchanged. -/
theorem C3_index_memoization :
    (∀ content : List Char,
      (parseDocument content none).scenes = (parseDocument content none).scenes ∧
      (parseDocument content none).contentHash = (parseDocument content none).contentHash) ∧
    (∀ (content : List Char) (prev : SceneIndex),
      prev.contentHash = calculateHash content → parseDocument content (some prev) = prev) := by
  constructor
  · exact fun _ => ⟨rfl, rfl⟩
  · intro content prev h
    simp [parseDocument, h]

/-- Witness for C3 at concrete input. -/
theorem C3_index_memoization_witness :
    parseDocument ("abc".toList) (some ⟨[], 0, calculateHash ("abc".toList)⟩) =
      ⟨[], 0, calculateHash ("abc".toList)⟩ :=
  C3_index_memoization.2 ("abc".toList) ⟨[], 0, calculateHash ("abc".toList)⟩ rfl

/-- C7: estimateDuration returns 0 on nonpositive word counts, otherwise the
duration rounded up to the nearest half minute, ceil((wordCount/200)*2)/2;
in particular 0 ↦ 0, 50 ↦ 0.5, 200 ↦ 1, 201 ↦ 1.5. -/
theorem C7_duration_rounding :
    (∀ w : Int, w ≤ 0 → estimateDuration w = 0) ∧
    (∀ w : Int, 0 < w → estimateDuration w = (⌈((w : ℚ) / 200) * 2⌉ : ℚ) / 2) ∧
    estimateDuration 0 = 0 ∧
    estimateDuration 50 = 1 / 2 ∧
    estimateDuration 200 = 1 ∧
    estimateDuration 201 = 3 / 2 := by
  have hpos : ∀ w : Int, 0 < w → estimateDuration w = (⌈((w : ℚ) / 200) * 2⌉ : ℚ) / 2 := by
    intro w h
    rw [estimateDuration, if_neg (by omega)]
    rfl
  refine ⟨?_, hpos, ?_, ?_, ?_, ?_⟩
  · intro w h
    rw [estimateDuration, if_pos h]
  · rw [estimateDuration, if_pos (by norm_num)]
  · rw [hpos 50 (by norm_num)]
    rw [show ((50 : Int) : ℚ) / 200 * 2 = 1 / 2 from by norm_num]
    rw [show ⌈(1 : ℚ) / 2⌉ = 1 from by rw [Int.ceil_eq_iff]; norm_num]
    norm_num
  · rw [hpos 200 (by norm_num)]
    rw [show ((200 : Int) : ℚ) / 200 * 2 = 2 from by norm_num]
    rw [show ⌈(2 : ℚ)⌉ = 2 from by rw [Int.ceil_eq_iff]; norm_num]
    norm_num
  · rw [hpos 201 (by norm_num)]
    rw [show ((201 : Int) : ℚ) / 200 * 2 = 201 / 100 from by norm_num]
    rw [show ⌈(201 : ℚ) / 100⌉ = 3 from by rw [Int.ceil_eq_iff]; norm_num]
    norm_num

/-- Witness for C7 at concrete inputs. -/
theorem C7_duration_rounding_witness :
    estimateDuration (-1) = 0 ∧
    estimateDuration 201 = (⌈((201 : Int) : ℚ) / 200 * 2⌉ : ℚ) / 2 :=
  ⟨C7_duration_rounding.1 (-1) (by norm_num), C7_duration_rounding.2.1 201 (by norm_num)⟩

/-- C9: inserting between two episodes attaches to the earlier one: for scenes
[(1,3)@0, (2,1)@10] and cursor 5, getNextSceneNumber is (1,4) and
needsRenumbering is false; and the numbering engine never changes episode
numbers (renumberScenesInEditor writes episode-(scene+1), renumberScenes
writes the filtered episode back unchanged). -/
theorem C9_cross_episode_insertion :
    getNextSceneNumber ⟨[⟨1, 3, 0, ['日'], '内', [], [], [], 0, false⟩,
                         ⟨2, 1, 10, ['日'], '内', [], [], [], 0, false⟩], 2, 0⟩ 5 = ⟨1, 4⟩ ∧
    needsRenumbering ⟨[⟨1, 3, 0, ['日'], '内', [], [], [], 0, false⟩,
                       ⟨2, 1, 10, ['日'], '内', [], [], [], 0, false⟩], 2, 0⟩ 5 = false ∧
    (∀ sc : SceneInfo, (renumberedNumber sc).episode = sc.episode) ∧
    (∀ (idx : SceneIndex) (fromLine episode : Nat) (p : SceneInfo × SceneNumber),
      p ∈ renumberScenesPlan idx fromLine episode →
      p.2.episode = episode ∧ p.1.episode = episode) := by
  refine ⟨by decide, by decide, fun _ => rfl, ?_⟩
  intro idx fromLine episode p hp
  unfold renumberScenesPlan at hp
  simp only [List.mem_map] at hp
  obtain ⟨q, hq, rfl⟩ := hp
  refine ⟨rfl, ?_⟩
  have hmem : q.2 ∈ idx.scenes.filter
      (fun s => decide (s.episode = episode ∧ fromLine ≤ s.line)) := by
    have hq2 := List.mem_enum hq
    have hmem2 := List.getElem_mem hq2.1
    rw [← hq2.2] at hmem2
    exact ((List.perm_insertionSort (fun a b => a.line ≤ b.line) _).mem_iff).mp hmem2
  have := (List.mem_filter.mp hmem).2
  exact (of_decide_eq_true this).1

/-- Witness for C9 at a concrete plan membership. -/
theorem C9_cross_episode_insertion_witness :
    ((⟨1, 3, 0, ['日'], '内', [], [], [], 0, false⟩ : SceneInfo),
      (⟨1, 1⟩ : SceneNumber)).2.episode = 1 ∧
    ((⟨1, 3, 0, ['日'], '内', [], [], [], 0, false⟩ : SceneInfo),
      (⟨1, 1⟩ : SceneNumber)).1.episode = 1 :=
  C9_cross_episode_insertion.2.2.2
    ⟨[⟨1, 3, 0, ['日'], '内', [], [], [], 0, false⟩,
      ⟨2, 1, 10, ['日'], '内', [], [], [], 0, false⟩], 2, 0⟩ 0 1
    (⟨1, 3, 0, ['日'], '内', [], [], [], 0, false⟩, ⟨1, 1⟩) (by decide)

/-- C6 (amended): the Word exporter's line classifier follows the claimed
fixed priority order (empty → flashback markers → episode header → scene
header → character list → action → emotion dialogue → plain colon dialogue →
other, with the character-list rule covering both character-line forms);
and the load-bearing example 张三（笑）：你好 is classified as emotion
Dialogue by both exporters' classifiers, never SimpleDialogue or Other. -/
theorem C6_classifier_priority :
    (∀ line : List Char, getLineTypeWord line = specClassify line) ∧
    getLineTypeWord ("张三（笑）：你好".toList) = LineType.Dialogue ∧
    getLineTypePDF ("张三（笑）：你好".toList) = LineType.Dialogue := by
  refine ⟨?_, by decide, by decide⟩
  intro line
  by_cases h1 : jsTrim line = []
  · simp [getLineTypeWord, specClassify, specClassifyRules, firstRule, h1]
  · by_cases h2 : jsTrim line = FLASHBACK_START
    · simp [getLineTypeWord, specClassify, specClassifyRules, firstRule, h1, h2]
    · by_cases h3 : jsTrim line = FLASHBACK_END
      · simp [getLineTypeWord, specClassify, specClassifyRules, firstRule, h1, h2, h3]
      · by_cases h4 : episodeHeaderTestWord (jsTrim line) = true
        · simp [getLineTypeWord, specClassify, specClassifyRules, firstRule, h1, h2, h3, h4]
        · by_cases h5 : (sceneHeaderMatch (jsTrim line)).isSome = true
          · simp [getLineTypeWord, specClassify, specClassifyRules, firstRule,
              h1, h2, h3, h4, h5]
          · by_cases h6 : personWordTest (jsTrim line) = true
            · simp [getLineTypeWord, specClassify, specClassifyRules, firstRule,
                h1, h2, h3, h4, h5, h6]
            · by_cases h7 : (characterListMatch (jsTrim line)).isSome = true
              · simp [getLineTypeWord, specClassify, specClassifyRules, firstRule,
                  h1, h2, h3, h4, h5, h6, h7]
              · by_cases h8 : (actionMatch (jsTrim line)).isSome = true
                · simp [getLineTypeWord, specClassify, specClassifyRules, firstRule,
                    h1, h2, h3, h4, h5, h6, h7, h8]
                · by_cases h9 : (dialogueMatch (jsTrim line)).isSome = true
                  · simp [getLineTypeWord, specClassify, specClassifyRules, firstRule,
                      h1, h2, h3, h4, h5, h6, h7, h8, h9]
                  · by_cases h10 : (simpleDialogueMatch (jsTrim line)).isSome = true <;>
                      simp [getLineTypeWord, specClassify, specClassifyRules, firstRule,
                        h1, h2, h3, h4, h5, h6, h7, h8, h9, h10]

/-- Counterexample to C6 as stated: the PDF exporter's classifier does not
follow the claimed priority order — on △张三（笑）：你好 the claimed order
(action before dialogue) demands Action, but the PDF classifier tests the
dialogue patterns before the action marker and returns Dialogue. -/
theorem C6_counterexample :
    getLineTypePDF ("△张三（笑）：你好".toList) = LineType.Dialogue ∧
    specClassify ("△张三（笑）：你好".toList) = LineType.Action := by
  constructor <;> decide

/-- Counterexample to C1 as stated: on the bare pair 3-2, validateSceneHeader
reports a single combined error (missing time, in-or-out and location in one
message), not three separate errors. -/
theorem C1_counterexample :
    (validateSceneHeader ("3-2".toList)).valid = false ∧
    (validateSceneHeader ("3-2".toList)).errors.length = 1 := by
  constructor <;> decide

/-- C1 (amended): for every line consisting only of a bare episode-scene
number pair, validateSceneHeader returns valid=false with exactly one error,
positioned right after the number, whose single message reports the missing
time, in-or-out marker and location together. -/
theorem C1_bare_pair_single_error :
    ∀ e s : Nat,
      validateSceneHeader (natToDigits e ++ '-' :: natToDigits s) =
        ⟨false, [⟨(natToDigits e).length + 1 + (natToDigits s).length,
                  "缺少时间、内外景和地点信息"⟩]⟩ := by
  intro e s
  obtain ⟨c0, ce, he⟩ : ∃ c0 ce, natToDigits e = c0 :: ce := by
    cases h : natToDigits e with
    | nil => exact absurd h (natToDigits_ne_nil e)
    | cons a t => exact ⟨a, t, rfl⟩
  have hde : ∀ c ∈ natToDigits e, isDigitCh c = true := natToDigits_all_digits e
  have hds : ∀ c ∈ natToDigits s, isDigitCh c = true := natToDigits_all_digits s
  have hdsne : natToDigits s ≠ [] := natToDigits_ne_nil s
  have htrim : jsTrim (natToDigits e ++ '-' :: natToDigits s) =
      natToDigits e ++ '-' :: natToDigits s := by
    apply jsTrim_eq_self
    · intro c hc
      rw [he] at hc
      simp only [List.cons_append, List.head?_cons, Option.some.injEq] at hc
      subst hc
      exact isWS_false_of_digit (hde c0 (by rw [he]; simp))
    · intro c hc
      rw [show ('-' : Char) :: natToDigits s = ['-'] ++ natToDigits s from rfl,
        ← List.append_assoc, List.getLast?_append_of_ne_nil _ hdsne] at hc
      have hmem : c ∈ natToDigits s := by
        cases h2 : natToDigits s with
        | nil => exact absurd h2 hdsne
        | cons a t =>
          rw [h2] at hc
          exact List.mem_of_mem_getLast? hc
      exact isWS_false_of_digit (hds c hmem)
  have hne : (natToDigits e ++ '-' :: natToDigits s) ≠ [] := by rw [he]; simp
  have hnum : sceneNumberMatch (natToDigits e ++ '-' :: natToDigits s) =
      some (natToDigits e, natToDigits s, []) := by
    unfold sceneNumberMatch
    rw [takeWhile_app_stop _ hde (by decide), dropWhile_app_stop _ hde (by decide)]
    rw [if_neg (by rw [he]; simp)]
    show (if ('-' : Char) = '-' then
        if (natToDigits s).takeWhile isDigitCh = [] then none
        else some (natToDigits e, (natToDigits s).takeWhile isDigitCh,
          (natToDigits s).dropWhile isDigitCh)
      else none) = some (natToDigits e, natToDigits s, [])
    rw [if_pos rfl, takeWhile_all hds, dropWhile_all hds, if_neg hdsne]
  simp [validateSceneHeader, htrim, hnum, hne, show jsTrim ([] : List Char) = [] from rfl]

/-- C8: content word counting excludes structural markup: a character-list
line (人, space, names) contributes 0 whatever the names are, and an emotion
dialogue line counts only the dialogue-text capture (4 for 你好世界),
excluding name and emotion. -/
theorem C8_word_count_exclusions :
    (∀ names : List Char, '\n' ∉ names → (∃ c ∈ names, isWS c = false) →
      countContentWords ('人' :: ' ' :: names) = 0) ∧
    countContentWords ("张三（笑）：你好世界".toList) = 4 := by
  constructor
  · intro names hn hex
    have htrimRne : trimR names ≠ [] := by
      unfold trimR
      simp only [ne_eq, List.reverse_eq_nil_iff]
      apply dropWhile_ne_nil_of_exists
      obtain ⟨c, hc, hpc⟩ := hex
      exact ⟨c, List.mem_reverse.mpr hc, hpc⟩
    have ht2 : trimR (' ' :: names) = ' ' :: trimR names := trimR_cons htrimRne
    have ht1 : trimR ('人' :: ' ' :: names) = '人' :: ' ' :: trimR names := by
      rw [trimR_cons (by rw [ht2]; simp), ht2]
    have htrim : jsTrim ('人' :: ' ' :: names) = '人' :: ' ' :: trimR names := by
      unfold jsTrim
      rw [trimL_eq_self (by
        intro c hc
        simp only [List.head?_cons, Option.some.injEq] at hc
        subst hc
        decide)]
      exact ht1
    have hsn : sceneNumberMatch ('人' :: ' ' :: trimR names) = none := by
      unfold sceneNumberMatch
      rw [List.takeWhile_cons_of_neg (by decide)]
      simp
    have hsplit : ('人' :: ' ' :: names).splitOn '\n' = ['人' :: ' ' :: names] := by
      apply splitOn_no_newline
      simp only [List.mem_cons, not_or]
      exact ⟨by decide, by decide, hn⟩
    unfold countContentWords
    rw [hsplit]
    simp only [List.map_cons, List.map_nil, List.sum_cons, List.sum_nil, Nat.add_zero]
    simp [lineContentWords, htrim, hsn, hasPrefixL]
  · decide

/-- Witness for C8 at a concrete name list. -/
theorem C8_word_count_exclusions_witness :
    countContentWords ('人' :: ' ' :: "张三 李四".toList) = 0 :=
  C8_word_count_exclusions.1 ("张三 李四".toList) (by decide) (by decide)

/-- Counterexample to C2 as stated: the header record with empty time
(an allowed "any string" under the claim) does not round-trip — formatting
3-2 with empty time and parsing back yields no header at all. -/
theorem C2_counterexample :
    parseSceneHeader (generateSceneHeaderTemplate 3 2 [] ['内'] "咖啡馆".toList) = none ∧
    '\n' ∉ ("咖啡馆".toList) := by
  have h3 : natToDigits 3 = ['3'] := by rw [natToDigits]; simp [digitChar]
  have h2 : natToDigits 2 = ['2'] := by rw [natToDigits]; simp [digitChar]
  constructor
  · rw [generateSceneHeaderTemplate, h3, h2]
    decide
  · decide

/-- Counterexample to C4 as stated: a document repeating the header 1-1
produces an index whose (episode, scene) pairs are not pairwise distinct. -/
theorem C4_counterexample :
    ((parseDocument ("1-1 日 内 A\n1-1 日 内 B".toList) none).scenes.map
        (fun sc => (sc.episode, sc.scene))) = [(1, 1), (1, 1)] ∧
    ¬ ((parseDocument ("1-1 日 内 A\n1-1 日 内 B".toList) none).scenes.map
        (fun sc => (sc.episode, sc.scene))).Pairwise (· ≠ ·) := by
  constructor <;> decide

/-- Counterexample to C5 as stated: index with the single scene (1,2)@5 and
cursor 0 — a next scene exists (the first scene with line > 0) and it lies
in the same episode (1) as the insertion number computed by
getNextSceneNumber, so clause (a) of the claim demands true, yet
needsRenumbering returns false (the code also requires a preceding scene,
or scene number 1 on the first scene). -/
theorem C5_counterexample :
    needsRenumbering ⟨[⟨1, 2, 5, ['日'], '内', [], [], [], 0, false⟩], 1, 0⟩ 0 = false ∧
    (⟨[⟨1, 2, 5, ['日'], '内', [], [], [], 0, false⟩], 1, 0⟩ : SceneIndex).scenes.find?
        (fun sc => 0 < sc.line) = some ⟨1, 2, 5, ['日'], '内', [], [], [], 0, false⟩ ∧
    (getNextSceneNumber ⟨[⟨1, 2, 5, ['日'], '内', [], [], [], 0, false⟩], 1, 0⟩ 0).episode = 1 ∧
    (⟨1, 2, 5, ['日'], '内', [], [], [], 0, false⟩ : SceneInfo).episode = 1 := by
  refine ⟨by decide, by decide, by decide, rfl⟩

theorem modifyLast_map_line (f : SceneInfo → SceneInfo) (hf : ∀ sc, (f sc).line = sc.line) :
    ∀ l : List SceneInfo,
      (modifyLast f l).map (fun sc => sc.line) = l.map (fun sc => sc.line) := by
  intro l
  induction l with
  | nil => rfl
  | cons a t ih =>
    cases t with
    | nil => simp [modifyLast, hf]
    | cons b rest =>
      simp only [modifyLast, List.map_cons]
      rw [show (modifyLast f (b :: rest)).map (fun sc => sc.line) =
        (b :: rest).map (fun sc => sc.line) from ih]
      simp

theorem flushScene_map_line (st : ScanState) :
    (flushScene st).map (fun sc => sc.line) = st.scenes.map (fun sc => sc.line) := by
  unfold flushScene
  apply modifyLast_map_line
  intro sc
  rfl

theorem processLine_lines (st : ScanState) (i : Nat) (line : List Char) :
    (processLine st i line).scenes.map (fun sc => sc.line) = st.scenes.map (fun sc => sc.line) ∨
    (processLine st i line).scenes.map (fun sc => sc.line) =
      st.scenes.map (fun sc => sc.line) ++ [i] := by
  simp only [processLine]
  split
  · exact Or.inl rfl
  · split
    · exact Or.inl rfl
    · split
      · right
        split
        · simp [flushScene_map_line]
        · simp
      · split
        · split
          · left
            apply modifyLast_map_line
            intro sc
            rfl
          · exact Or.inl rfl
        · exact Or.inl rfl

theorem scanLines_sorted (lines : List (List Char)) : ∀ (i : Nat) (st : ScanState),
    (st.scenes.map (fun sc => sc.line)).Pairwise (· < ·) →
    (∀ x ∈ st.scenes.map (fun sc => sc.line), x < i) →
    ((scanLines lines i st).scenes.map (fun sc => sc.line)).Pairwise (· < ·) := by
  induction lines with
  | nil => intro i st h1 _; exact h1
  | cons l ls ih =>
    intro i st h1 h2
    simp only [scanLines]
    apply ih (i + 1)
    · rcases processLine_lines st i l with h | h
      · rw [h]; exact h1
      · rw [h, List.pairwise_append]
        refine ⟨h1, by simp, ?_⟩
        intro a ha b hb
        simp only [List.mem_singleton] at hb
        subst hb
        exact h2 a ha
    · intro x hx
      rcases processLine_lines st i l with h | h
      · rw [h] at hx
        exact Nat.lt_trans (h2 x hx) (by omega)
      · rw [h] at hx
        simp only [List.mem_append, List.mem_singleton] at hx
        rcases hx with hx | hx
        · exact Nat.lt_trans (h2 x hx) (by omega)
        · omega

/-- C4 (amended): for every document text, the scene records produced by a
fresh parseDocument scan are sorted by line index in strictly ascending
order.  The second half of the claim — uniqueness of (episode, scene) pairs
— is not guaranteed by parseDocument (see the counterexample); it holds only
for well-formed documents. -/
theorem C4_scenes_sorted_by_line :
    ∀ content : List Char,
      (parseDocument content none).scenes.Pairwise (fun a b => a.line < b.line) := by
  intro content
  have hscan := scanLines_sorted (content.splitOn '\n') 0 initScanState
    (by simp [initScanState]) (by simp [initScanState])
  apply List.pairwise_map.mp
  unfold parseDocument
  by_cases hfl : (scanLines (content.splitOn '\n') 0 initScanState).scenes ≠ [] ∧
      (scanLines (content.splitOn '\n') 0 initScanState).content ≠ []
  · simp only [if_pos hfl]
    rw [flushScene_map_line]
    exact hscan
  · simp only [if_neg hfl]
    exact hscan

theorem findPrevNext_snd (cursorLine : Nat) (scenes : List SceneInfo) :
    ∀ prev0, (findPrevNext cursorLine scenes prev0).2 =
      scenes.find? (fun sc => cursorLine < sc.line) := by
  induction scenes with
  | nil => intro prev0; rfl
  | cons sc rest ih =>
    intro prev0
    by_cases h : sc.line ≤ cursorLine
    · rw [show findPrevNext cursorLine (sc :: rest) prev0 =
        findPrevNext cursorLine rest (some sc) from by simp [findPrevNext, h]]
      rw [ih (some sc)]
      rw [List.find?_cons_of_neg _ (by simpa using h)]
    · rw [show findPrevNext cursorLine (sc :: rest) prev0 = (prev0, some sc) from by
        simp [findPrevNext, h]]
      rw [List.find?_cons_of_pos _ (by simpa using Nat.lt_of_not_le h)]

theorem findPrevNext_fst_of_some (cursorLine : Nat) (scenes : List SceneInfo) :
    ∀ p, ∃ q, (findPrevNext cursorLine scenes (some p)).1 = some q ∧
      (q = p ∨ q ∈ scenes) := by
  induction scenes with
  | nil => intro p; exact ⟨p, rfl, Or.inl rfl⟩
  | cons sc rest ih =>
    intro p
    by_cases h : sc.line ≤ cursorLine
    · rw [show findPrevNext cursorLine (sc :: rest) (some p) =
        findPrevNext cursorLine rest (some sc) from by simp [findPrevNext, h]]
      obtain ⟨q, hq, hor⟩ := ih sc
      refine ⟨q, hq, Or.inr ?_⟩
      rcases hor with h2 | h2
      · simp [h2]
      · simp [h2]
    · exact ⟨p, by simp [findPrevNext, h], Or.inl rfl⟩

theorem findPrevNext_fst_inv (cursorLine : Nat) (scenes : List SceneInfo) :
    ∀ prev0 q, (findPrevNext cursorLine scenes prev0).1 = some q →
      (q ∈ scenes ∧ q.line ≤ cursorLine) ∨ prev0 = some q := by
  induction scenes with
  | nil => intro prev0 q hq; exact Or.inr hq
  | cons sc rest ih =>
    intro prev0 q hq
    by_cases h : sc.line ≤ cursorLine
    · rw [show findPrevNext cursorLine (sc :: rest) prev0 =
        findPrevNext cursorLine rest (some sc) from by simp [findPrevNext, h]] at hq
      rcases ih (some sc) q hq with ⟨hmem, hle⟩ | heq
      · exact Or.inl ⟨by simp [hmem], hle⟩
      · injection heq with heq2
        subst heq2
        exact Or.inl ⟨by simp, h⟩
    · rw [show findPrevNext cursorLine (sc :: rest) prev0 = (prev0, some sc) from by
        simp [findPrevNext, h]] at hq
      exact Or.inr hq

theorem findPrevNext_fst_none (cursorLine : Nat) {scenes : List SceneInfo}
    (hs : scenes.Pairwise (fun a b => a.line < b.line)) :
    (findPrevNext cursorLine scenes none).1 = none ↔
      ∀ sc ∈ scenes, cursorLine < sc.line := by
  cases scenes with
  | nil => simp [findPrevNext]
  | cons sc rest =>
    by_cases h : sc.line ≤ cursorLine
    · rw [show findPrevNext cursorLine (sc :: rest) none =
        findPrevNext cursorLine rest (some sc) from by simp [findPrevNext, h]]
      obtain ⟨q, hq, _⟩ := findPrevNext_fst_of_some cursorLine rest sc
      constructor
      · intro hnone; rw [hq] at hnone; cases hnone
      · intro hall
        exact absurd (hall sc (by simp)) (by omega)
    · rw [show findPrevNext cursorLine (sc :: rest) none = (none, some sc) from by
        simp [findPrevNext, h]]
      constructor
      · intro _
        intro b hb
        simp only [List.mem_cons] at hb
        rcases hb with hb | hb
        · subst hb; omega
        · have := (List.pairwise_cons.mp hs).1 b hb
          omega
      · intro _; rfl

theorem findPrevNext_none_next (cursorLine : Nat) {sc : SceneInfo} {rest : List SceneInfo}
    {x : Option SceneInfo}
    (h : findPrevNext cursorLine (sc :: rest) none = (none, x)) :
    x = some sc ∧ cursorLine < sc.line := by
  by_cases hle : sc.line ≤ cursorLine
  · rw [show findPrevNext cursorLine (sc :: rest) none =
      findPrevNext cursorLine rest (some sc) from by simp [findPrevNext, hle]] at h
    obtain ⟨q, hq, _⟩ := findPrevNext_fst_of_some cursorLine rest sc
    rw [show (findPrevNext cursorLine rest (some sc)).1 = none from by rw [h]] at hq
    cases hq
  · rw [show findPrevNext cursorLine (sc :: rest) none = (none, some sc) from by
      simp [findPrevNext, hle]] at h
    have := congrArg Prod.snd h
    simp only at this
    exact ⟨this.symm, by omega⟩

theorem getNextSceneNumber_episode_of_prev {idx : SceneIndex} {cursorLine : Nat}
    {prev : SceneInfo} {x : Option SceneInfo}
    (h : findPrevNext cursorLine idx.scenes none = (some prev, x)) :
    (getNextSceneNumber idx cursorLine).episode = prev.episode := by
  unfold getNextSceneNumber
  cases hsc : idx.scenes with
  | nil =>
    rw [hsc] at h
    simp [findPrevNext] at h
  | cons first rest =>
    rw [hsc] at h
    rw [h]
    cases x with
    | none => rfl
    | some next =>
      by_cases he : prev.episode = next.episode <;> simp [he]

/-- C5 (amended, stated over indexes satisfying the data-model line-sorted
invariant): needsRenumbering is true exactly when either (a) the cursor lies
at or after some scene and there exists a next scene (first scene with
line > cursorLine) in the same episode as the insertion number computed by
getNextSceneNumber, or (b) the cursor lies before every scene and the first
scene's number is 1.  The claim's clause (a) as stated omitted the
requirement of a preceding scene (see the counterexample). -/
theorem C5_needsRenumbering_characterization (idx : SceneIndex) (cursorLine : Nat)
    (hs : idx.scenes.Pairwise (fun a b => a.line < b.line)) :
    needsRenumbering idx cursorLine = true ↔
      ((∃ sc ∈ idx.scenes, sc.line ≤ cursorLine) ∧
        ∃ nxt, idx.scenes.find? (fun sc => cursorLine < sc.line) = some nxt ∧
          nxt.episode = (getNextSceneNumber idx cursorLine).episode) ∨
      ((∀ sc ∈ idx.scenes, cursorLine < sc.line) ∧
        ∃ firstScene, idx.scenes.head? = some firstScene ∧ firstScene.scene = 1) := by
  cases hsc : idx.scenes with
  | nil =>
    constructor
    · intro h
      simp [needsRenumbering, hsc] at h
    · rintro (⟨⟨sc, hmem, -⟩, -⟩ | ⟨-, ⟨f, hf, -⟩⟩)
      · cases hmem
      · cases hf
  | cons first rest =>
    rcases hpn : findPrevNext cursorLine idx.scenes none with ⟨fst, snd⟩
    rw [hsc] at hpn
    have hs2 : (first :: rest).Pairwise (fun a b => a.line < b.line) := hsc ▸ hs
    have hfind : (first :: rest).find? (fun sc => cursorLine < sc.line) = snd := by
      rw [← findPrevNext_snd cursorLine (first :: rest) none, hpn]
    cases snd with
    | none =>
      have hval : needsRenumbering idx cursorLine = false := by
        cases fst <;> simp [needsRenumbering, hsc, hpn]
      rw [hval]
      constructor
      · intro h; cases h
      · rintro (⟨-, ⟨nxt, hfind2, -⟩⟩ | ⟨hall, -⟩)
        · rw [hfind] at hfind2; cases hfind2
        · have h1 : cursorLine < first.line := hall first (by simp)
          rw [List.find?_cons_of_pos _ (by simpa using h1)] at hfind
          cases hfind
    | some next =>
      cases fst with
      | some prev =>
        have hval : needsRenumbering idx cursorLine = decide (prev.episode = next.episode) := by
          simp [needsRenumbering, hsc, hpn]
        have hprev : (prev ∈ first :: rest ∧ prev.line ≤ cursorLine) := by
          rcases findPrevNext_fst_inv cursorLine (first :: rest) none prev
            (by rw [hpn]) with h | h
          · exact h
          · cases h
        have hep : (getNextSceneNumber idx cursorLine).episode = prev.episode :=
          getNextSceneNumber_episode_of_prev (by rw [hsc, hpn])
        rw [hval, decide_eq_true_eq]
        constructor
        · intro he
          exact Or.inl ⟨⟨prev, hprev.1, hprev.2⟩, next, hfind, by rw [hep]; exact he.symm⟩
        · rintro (⟨-, ⟨nxt, hfind2, hepi⟩⟩ | ⟨hall, -⟩)
          · rw [hfind] at hfind2
            injection hfind2 with h2
            subst h2
            rw [hep] at hepi
            exact hepi.symm
          · exact absurd (hall prev hprev.1) (by omega)
      | none =>
        have hval : needsRenumbering idx cursorLine = decide (next.scene = 1) := by
          simp [needsRenumbering, hsc, hpn]
        obtain ⟨hnext, hlt⟩ := findPrevNext_none_next cursorLine hpn
        injection hnext with hnext2
        have hall : ∀ sc ∈ first :: rest, cursorLine < sc.line :=
          (findPrevNext_fst_none cursorLine hs2).mp (by rw [hpn])
        rw [hval, decide_eq_true_eq]
        constructor
        · intro hone
          exact Or.inr ⟨hall, first, rfl, by rw [← hnext2]; exact hone⟩
        · rintro (⟨⟨sc, hmem, hle⟩, -⟩ | ⟨-, ⟨f, hf, hf1⟩⟩)
          · exact absurd (hall sc hmem) (by omega)
          · injection hf with hf2
            rw [hnext2, hf2]
            exact hf1

/-- Witness for C5 at a concrete sorted index: scenes [(1,1)@0, (1,2)@10],
cursor 5 — renumbering is needed, and the characterization holds. -/
theorem C5_needsRenumbering_characterization_witness :
    needsRenumbering ⟨[⟨1, 1, 0, ['日'], '内', [], [], [], 0, false⟩,
                       ⟨1, 2, 10, ['日'], '内', [], [], [], 0, false⟩], 1, 0⟩ 5 = true ↔
      ((∃ sc ∈ (⟨[⟨1, 1, 0, ['日'], '内', [], [], [], 0, false⟩,
                  ⟨1, 2, 10, ['日'], '内', [], [], [], 0, false⟩], 1, 0⟩ : SceneIndex).scenes,
          sc.line ≤ 5) ∧
        ∃ nxt, (⟨[⟨1, 1, 0, ['日'], '内', [], [], [], 0, false⟩,
                  ⟨1, 2, 10, ['日'], '内', [], [], [], 0, false⟩], 1, 0⟩ : SceneIndex).scenes.find?
            (fun sc => 5 < sc.line) = some nxt ∧
          nxt.episode = (getNextSceneNumber ⟨[⟨1, 1, 0, ['日'], '内', [], [], [], 0, false⟩,
            ⟨1, 2, 10, ['日'], '内', [], [], [], 0, false⟩], 1, 0⟩ 5).episode) ∨
      ((∀ sc ∈ (⟨[⟨1, 1, 0, ['日'], '内', [], [], [], 0, false⟩,
                  ⟨1, 2, 10, ['日'], '内', [], [], [], 0, false⟩], 1, 0⟩ : SceneIndex).scenes,
          5 < sc.line) ∧
        ∃ firstScene, (⟨[⟨1, 1, 0, ['日'], '内', [], [], [], 0, false⟩,
            ⟨1, 2, 10, ['日'], '内', [], [], [], 0, false⟩], 1, 0⟩ : SceneIndex).scenes.head? =
            some firstScene ∧ firstScene.scene = 1) :=
  C5_needsRenumbering_characterization
    ⟨[⟨1, 1, 0, ['日'], '内', [], [], [], 0, false⟩,
      ⟨1, 2, 10, ['日'], '内', [], [], [], 0, false⟩], 1, 0⟩ 5 (by decide)

theorem wsThenRest_structured {location : List Char}
    (hlocne : location ≠ [])
    (hlochead : ∀ c, location.head? = some c → isWS c = false)
    (hlocterm : ∀ c ∈ location, isLineTerm c = false) :
    wsThenRest (' ' :: location) = some location := by
  obtain ⟨lc, lrest, hl⟩ : ∃ lc lrest, location = lc :: lrest := by
    cases location with
    | nil => exact absurd rfl hlocne
    | cons a t => exact ⟨a, t, rfl⟩
  have hlc : isWS lc = false := hlochead lc (by rw [hl]; rfl)
  have htw : (' ' :: location).takeWhile isWS = [' '] := by
    rw [hl, show (' ' :: lc :: lrest) = [' '] ++ lc :: lrest from rfl]
    exact takeWhile_app_stop _ (by intro x hx; simp at hx; subst hx; decide) hlc
  have hdw : (' ' :: location).dropWhile isWS = location := by
    rw [hl, show (' ' :: lc :: lrest) = [' '] ++ lc :: lrest from rfl]
    exact dropWhile_app_stop _ (by intro x hx; simp at hx; subst hx; decide) hlc
  have hany : location.any isLineTerm = false := by
    rw [List.any_eq_false]
    intro x hx
    simp [hlocterm x hx]
  simp only [wsThenRest, htw, hdw]
  rw [if_neg (by simp), if_pos (by simpa using hlocne)]
  rw [if_neg (by simp [hany])]

theorem sceneHeaderMatch_structured
    (d1 d2 time : List Char) (ltc : Char) (location : List Char)
    (hd1 : ∀ c ∈ d1, isDigitCh c = true) (hd1ne : d1 ≠ [])
    (hd2 : ∀ c ∈ d2, isDigitCh c = true) (hd2ne : d2 ≠ [])
    (ht : ∀ c ∈ time, isWS c = false) (htne : time ≠ [])
    (hltc : isWS ltc = false)
    (hlochead : ∀ c, location.head? = some c → isWS c = false) (hlocne : location ≠ [])
    (hlocterm : ∀ c ∈ location, isLineTerm c = false) :
    sceneHeaderMatch (d1 ++ '-' :: (d2 ++ ' ' :: (time ++ ' ' :: ltc :: ' ' :: location))) =
      if ltc = '内' ∨ ltc = '外' then
        some (digitsToNat d1, digitsToNat d2, time, ltc, location)
      else none := by
  obtain ⟨tc, tt, htime⟩ : ∃ tc tt, time = tc :: tt := by
    cases time with
    | nil => exact absurd rfl htne
    | cons a t => exact ⟨a, t, rfl⟩
  have htc : isWS tc = false := ht tc (by rw [htime]; simp)
  have e1 : (d1 ++ '-' :: (d2 ++ ' ' :: (time ++ ' ' :: ltc :: ' ' :: location))).takeWhile
      isDigitCh = d1 := by
    apply takeWhile_app_stop
    · exact hd1
    · decide
  have e2 : (d1 ++ '-' :: (d2 ++ ' ' :: (time ++ ' ' :: ltc :: ' ' :: location))).dropWhile
      isDigitCh = '-' :: (d2 ++ ' ' :: (time ++ ' ' :: ltc :: ' ' :: location)) := by
    apply dropWhile_app_stop
    · exact hd1
    · decide
  have e3 : (d2 ++ ' ' :: (time ++ ' ' :: ltc :: ' ' :: location)).takeWhile isDigitCh = d2 := by
    apply takeWhile_app_stop
    · exact hd2
    · decide
  have e4 : (d2 ++ ' ' :: (time ++ ' ' :: ltc :: ' ' :: location)).dropWhile isDigitCh =
      ' ' :: (time ++ ' ' :: ltc :: ' ' :: location) := by
    apply dropWhile_app_stop
    · exact hd2
    · decide
  have e5 : (' ' :: (time ++ ' ' :: ltc :: ' ' :: location)).takeWhile isWS = [' '] := by
    rw [htime]
    rw [show (' ' :: ((tc :: tt) ++ ' ' :: ltc :: ' ' :: location)) =
      [' '] ++ tc :: (tt ++ ' ' :: ltc :: ' ' :: location) from by simp]
    apply takeWhile_app_stop
    · intro x hx; simp at hx; subst hx; decide
    · exact htc
  have e6 : (' ' :: (time ++ ' ' :: ltc :: ' ' :: location)).dropWhile isWS =
      time ++ ' ' :: ltc :: ' ' :: location := by
    rw [htime]
    rw [show (' ' :: ((tc :: tt) ++ ' ' :: ltc :: ' ' :: location)) =
      [' '] ++ tc :: (tt ++ ' ' :: ltc :: ' ' :: location) from by simp]
    rw [show List.dropWhile isWS ([' '] ++ tc :: (tt ++ ' ' :: ltc :: ' ' :: location)) =
        tc :: (tt ++ ' ' :: ltc :: ' ' :: location) from by
      apply dropWhile_app_stop
      · intro x hx; simp at hx; subst hx; decide
      · exact htc]
    simp
  have ht2 : ∀ x ∈ time, (fun c => !isWS c) x = true := by
    intro x hx; simp [ht x hx]
  have e7 : (time ++ ' ' :: ltc :: ' ' :: location).takeWhile (fun c => !isWS c) = time := by
    apply takeWhile_app_stop
    · exact ht2
    · decide
  have e8 : (time ++ ' ' :: ltc :: ' ' :: location).dropWhile (fun c => !isWS c) =
      ' ' :: ltc :: ' ' :: location := by
    apply dropWhile_app_stop
    · exact ht2
    · decide
  have e9 : (' ' :: ltc :: ' ' :: location).takeWhile isWS = [' '] := by
    rw [show (' ' :: ltc :: ' ' :: location) = [' '] ++ ltc :: (' ' :: location) from rfl]
    apply takeWhile_app_stop
    · intro x hx; simp at hx; subst hx; decide
    · exact hltc
  have e10 : (' ' :: ltc :: ' ' :: location).dropWhile isWS = ltc :: ' ' :: location := by
    rw [show (' ' :: ltc :: ' ' :: location) = [' '] ++ ltc :: (' ' :: location) from rfl]
    apply dropWhile_app_stop
    · intro x hx; simp at hx; subst hx; decide
    · exact hltc
  have e11 : wsThenRest (' ' :: location) = some location :=
    wsThenRest_structured hlocne hlochead hlocterm
  simp [sceneHeaderMatch, e1, e2, e3, e4, e5, e6, e7, e8, e9, e10, e11,
    hd1ne, hd2ne, htne]

/-- C2 (amended): the header round-trip parseSceneHeader ∘ format = id holds
for every record whose time is nonempty and contains no whitespace, and
whose location is nonempty, trim-invariant (no leading or trailing
whitespace) and free of line terminators; the claim's "time: any string,
location: any string without newline" is too broad (see the
counterexample with empty time). -/
theorem C2_header_round_trip :
    ∀ (episode scene : Nat) (time : List Char) (ltc : Char) (location : List Char),
      (ltc = '内' ∨ ltc = '外') →
      time ≠ [] → (∀ c ∈ time, isWS c = false) →
      location ≠ [] → jsTrim location = location →
      (∀ c ∈ location, isLineTerm c = false) →
      parseSceneHeader (generateSceneHeaderTemplate episode scene time [ltc] location) =
        some ⟨episode, scene, time, ltc, location⟩ := by
  intro episode scene time ltc location hltc htne ht hlocne hloctrim hlocterm
  have hlochead : ∀ c, location.head? = some c → isWS c = false := by
    intro c hc
    exact head_jsTrim_not_ws (by rw [hloctrim]; exact hc)
  have hloclast : ∀ c, location.getLast? = some c → isWS c = false := by
    intro c hc
    exact getLast_jsTrim_not_ws (by rw [hloctrim]; exact hc)
  have hltcws : isWS ltc = false := by
    rcases hltc with h | h <;> subst h <;> decide
  have hshape : generateSceneHeaderTemplate episode scene time [ltc] location =
      natToDigits episode ++ '-' ::
        (natToDigits scene ++ ' ' :: (time ++ ' ' :: ltc :: ' ' :: location)) := by
    unfold generateSceneHeaderTemplate
    simp
  obtain ⟨c0, ce, he⟩ : ∃ c0 ce, natToDigits episode = c0 :: ce := by
    cases h : natToDigits episode with
    | nil => exact absurd h (natToDigits_ne_nil episode)
    | cons a t => exact ⟨a, t, rfl⟩
  have htrim : jsTrim (natToDigits episode ++ '-' ::
      (natToDigits scene ++ ' ' :: (time ++ ' ' :: ltc :: ' ' :: location))) =
      natToDigits episode ++ '-' ::
        (natToDigits scene ++ ' ' :: (time ++ ' ' :: ltc :: ' ' :: location)) := by
    apply jsTrim_eq_self
    · intro c hc
      rw [he] at hc
      simp only [List.cons_append, List.head?_cons, Option.some.injEq] at hc
      subst hc
      exact isWS_false_of_digit (natToDigits_all_digits episode c0 (by rw [he]; simp))
    · intro c hc
      rw [show (natToDigits episode ++ '-' ::
          (natToDigits scene ++ ' ' :: (time ++ ' ' :: ltc :: ' ' :: location))) =
        (natToDigits episode ++ '-' :: (natToDigits scene ++ ' ' ::
          (time ++ [' ', ltc, ' ']))) ++ location from by simp] at hc
      rw [List.getLast?_append_of_ne_nil _ hlocne] at hc
      exact hloclast c hc
  have hmatch : sceneHeaderMatch (natToDigits episode ++ '-' ::
      (natToDigits scene ++ ' ' :: (time ++ ' ' :: ltc :: ' ' :: location))) =
      some (episode, scene, time, ltc, location) := by
    rw [sceneHeaderMatch_structured (natToDigits episode) (natToDigits scene) time ltc location
      (natToDigits_all_digits episode) (natToDigits_ne_nil episode)
      (natToDigits_all_digits scene) (natToDigits_ne_nil scene)
      ht htne hltcws hlochead hlocne hlocterm]
    rw [if_pos hltc, digitsToNat_natToDigits, digitsToNat_natToDigits]
  rw [hshape]
  simp only [parseSceneHeader, htrim, hmatch, hloctrim]

/-- Witness for C2 at a concrete record. -/
theorem C2_header_round_trip_witness :
    parseSceneHeader (generateSceneHeaderTemplate 3 2 ("日".toList) ['内'] "咖啡馆".toList) =
      some ⟨3, 2, ("日".toList), '内', ("咖啡馆".toList)⟩ :=
  C2_header_round_trip 3 2 ("日".toList) '内' ("咖啡馆".toList) (Or.inl rfl)
    (by decide) (by decide) (by decide) (by decide) (by decide)

theorem wsThenRest_ne_nil {u : List Char} {loc : List Char} (h : wsThenRest u = some loc) :
    u ≠ [] := by
  intro he
  subst he
  simp [wsThenRest] at h

theorem wsThenRest_inv {u loc : List Char} (h : wsThenRest u = some loc)
    (hlast : ∀ c, u.getLast? = some c → isWS c = false) :
    u.takeWhile isWS ≠ [] ∧ u.dropWhile isWS = loc ∧ loc ≠ [] ∧
      loc.any isLineTerm = false := by
  have hune := wsThenRest_ne_nil h
  simp only [wsThenRest] at h
  split at h
  · cases h
  · split at h
    · split at h
      · cases h
      · rename_i hw hv hany
        injection h with h2
        subst h2
        exact ⟨hw, rfl, by simpa using hv, by simpa using hany⟩
    · rename_i hw hv
      exfalso
      have hall : ∀ x ∈ u, isWS x = true := by
        rw [← List.dropWhile_eq_nil_iff]
        simpa using hv
      obtain ⟨z, hz⟩ : ∃ z, u.getLast? = some z := by
        cases hu : u with
        | nil => exact absurd hu hune
        | cons a t => exact ⟨(a :: t).getLast (by simp), List.getLast?_eq_getLast _ _⟩
      have hzmem : z ∈ u := List.mem_of_mem_getLast? hz
      have := hall z hzmem
      rw [hlast z hz] at this
      cases this

theorem sceneHeaderMatch_inv {s : List Char} {e sc : Nat} {t : List Char} {lt : Char}
    {loc : List Char}
    (h : sceneHeaderMatch s = some (e, sc, t, lt, loc)) :
    ∃ r2 r7,
      s.takeWhile isDigitCh ≠ [] ∧
      s.dropWhile isDigitCh = '-' :: r2 ∧
      r2.takeWhile isDigitCh ≠ [] ∧
      ((r2.dropWhile isDigitCh).takeWhile isWS ≠ []) ∧
      ((r2.dropWhile isDigitCh).dropWhile isWS).takeWhile (fun c => !isWS c) = t ∧
      t ≠ [] ∧
      ((((r2.dropWhile isDigitCh).dropWhile isWS).dropWhile
          (fun c => !isWS c)).takeWhile isWS ≠ []) ∧
      ((((r2.dropWhile isDigitCh).dropWhile isWS).dropWhile
          (fun c => !isWS c)).dropWhile isWS = lt :: r7) ∧
      (lt = '内' ∨ lt = '外') ∧
      wsThenRest r7 = some loc ∧
      e = digitsToNat (s.takeWhile isDigitCh) ∧
      sc = digitsToNat (r2.takeWhile isDigitCh) := by
  simp only [sceneHeaderMatch] at h
  split at h
  · cases h
  next hd1ne =>
  split at h
  next c r2 hc1 =>
    split at h
    next hdash =>
      subst hdash
      split at h
      · cases h
      next hd2ne =>
      split at h
      · cases h
      next hw1ne =>
      split at h
      · cases h
      next htne =>
      split at h
      · cases h
      next hw2ne =>
      split at h
      next lt2 r7 heq6 =>
        split at h
        next hltok =>
          split at h
          next loc2 hws =>
            injection h with h2
            obtain ⟨he, hsc2, ht, hlt, hloc⟩ :
                e = digitsToNat (s.takeWhile isDigitCh) ∧
                sc = digitsToNat (r2.takeWhile isDigitCh) ∧
                ((r2.dropWhile isDigitCh).dropWhile isWS).takeWhile
                  (fun c => !isWS c) = t ∧ lt2 = lt ∧ loc2 = loc := by
              refine ⟨?_, ?_, ?_, ?_, ?_⟩ <;> cases h2 <;> rfl
            subst hlt
            refine ⟨r2, r7, hd1ne, hc1, hd2ne, hw1ne, ht, ?_, hw2ne, heq6, hltok, ?_, he, hsc2⟩
            · rw [← ht]; exact htne
            · rw [← hloc]; exact hws
          next hws => cases h
        next hltok => cases h
      next heq6 => cases h
    next hdash => cases h
  next hc1 => cases h

theorem getLast?_of_suffix {l1 l2 : List Char} (h : l2 <:+ l1) (hne : l2 ≠ []) :
    l1.getLast? = l2.getLast? := by
  obtain ⟨pre, rfl⟩ := h
  exact List.getLast?_append_of_ne_nil pre hne

/-- C10: the staged validator and the one-shot parser accept exactly the same
lines — validateSceneHeader reports valid=true precisely when
parseSceneHeader returns a header. -/
theorem C10_validate_iff_parse :
    ∀ line : List Char,
      (validateSceneHeader line).valid = true ↔ parseSceneHeader line ≠ none := by
  intro line
  constructor
  · intro h
    simp only [validateSceneHeader] at h
    split at h
    · simp at h
    · split at h
      · simp at h
      · split at h
        · simp at h
        · split at h
          · simp at h
          · split at h
            · simp at h
            · split at h
              · simp at h
              · split at h
                · simp at h
                · split at h
                  · simp at h
                  · split at h
                    next hmm => simp at h
                    next val heq => simp [parseSceneHeader, heq]
  · intro hp
    obtain ⟨res, hh⟩ : ∃ r, sceneHeaderMatch (jsTrim line) = some r := by
      cases hx : sceneHeaderMatch (jsTrim line) with
      | none => exact absurd (by simp [parseSceneHeader, hx]) hp
      | some r => exact ⟨r, rfl⟩
    obtain ⟨e, sc, t, lt, loc⟩ := res
    obtain ⟨r2, r7, hd1ne, hc1, hd2ne, hw1ne, ht, htne, hw2ne, heq6, hltok, hws, he, hsc2⟩ :=
      sceneHeaderMatch_inv hh
    have hltws : isWS lt = false := by
      rcases hltok with h0 | h0 <;> subst h0 <;> decide
    have htnws : ∀ c ∈ t, isWS c = false := by
      intro c hc
      rw [← ht] at hc
      simpa using List.mem_takeWhile_imp hc
    have hw2ws : ∀ c ∈ (((r2.dropWhile isDigitCh).dropWhile isWS).dropWhile
        (fun c => !isWS c)).takeWhile isWS, isWS c = true := by
      intro c hc
      exact List.mem_takeWhile_imp hc
    have hw3ws : ∀ c ∈ r7.takeWhile isWS, isWS c = true := by
      intro c hc
      exact List.mem_takeWhile_imp hc
    -- the tail pieces are suffixes of the trimmed line, whose last character
    -- is never whitespace
    have hsuf2 : ('-' :: r2) <:+ jsTrim line := by
      rw [← hc1]
      exact List.dropWhile_suffix isDigitCh
    have hsufR3 : (r2.dropWhile isDigitCh) <:+ jsTrim line :=
      (List.dropWhile_suffix isDigitCh).trans ((List.suffix_cons '-' r2).trans hsuf2)
    have hsufR4 : ((r2.dropWhile isDigitCh).dropWhile isWS) <:+ jsTrim line :=
      (List.dropWhile_suffix isWS).trans hsufR3
    have hsufR5 : (((r2.dropWhile isDigitCh).dropWhile isWS).dropWhile
        (fun c => !isWS c)) <:+ jsTrim line :=
      (List.dropWhile_suffix (fun c => !isWS c)).trans hsufR4
    have hsufR7 : r7 <:+ jsTrim line := by
      refine (List.suffix_cons lt r7).trans ?_
      rw [← heq6]
      exact (List.dropWhile_suffix isWS).trans hsufR5
    have hr7ne : r7 ≠ [] := by
      intro h0
      rw [h0] at hws
      simp [wsThenRest] at hws
    have hlast_r7 : ∀ c, r7.getLast? = some c → isWS c = false := by
      intro c hc
      exact getLast_jsTrim_not_ws (l := line)
        (by rw [getLast?_of_suffix hsufR7 hr7ne]; exact hc)
    obtain ⟨hw3ne, hlocdrop, hlocne, hlocany⟩ := wsThenRest_inv hws hlast_r7
    -- the scene-number stage succeeds with the same groups
    have hvnum : sceneNumberMatch (jsTrim line) =
        some ((jsTrim line).takeWhile isDigitCh, r2.takeWhile isDigitCh,
          r2.dropWhile isDigitCh) := by
      simp only [sceneNumberMatch, hc1]
      rw [if_neg hd1ne]
      show (if ('-' : Char) = '-' then
          if r2.takeWhile isDigitCh = [] then none
          else some ((jsTrim line).takeWhile isDigitCh, r2.takeWhile isDigitCh,
            r2.dropWhile isDigitCh)
        else none) = _
      rw [if_pos rfl, if_neg hd2ne]
    -- afterNumber is exactly the token part (no whitespace at either end)
    have hr4eq : ((r2.dropWhile isDigitCh).dropWhile isWS) =
        t ++ (((r2.dropWhile isDigitCh).dropWhile isWS).dropWhile (fun c => !isWS c)) := by
      conv_lhs => rw [← List.takeWhile_append_dropWhile (fun c => !isWS c)
        ((r2.dropWhile isDigitCh).dropWhile isWS)]
      rw [ht]
    have hr4ne : ((r2.dropWhile isDigitCh).dropWhile isWS) ≠ [] := by
      rw [hr4eq]
      cases t with
      | nil => exact absurd rfl htne
      | cons a b => simp
    have hlast_r4 : ∀ c, ((r2.dropWhile isDigitCh).dropWhile isWS).getLast? = some c →
        isWS c = false := by
      intro c hc
      exact getLast_jsTrim_not_ws (l := line)
        (by rw [getLast?_of_suffix hsufR4 hr4ne]; exact hc)
    have hAfter : jsTrim (r2.dropWhile isDigitCh) =
        ((r2.dropWhile isDigitCh).dropWhile isWS) := by
      unfold jsTrim trimL
      exact trimR_eq_self hlast_r4
    -- the whitespace split of afterNumber: time token, in-or-out token, rest
    have hr5eq : (((r2.dropWhile isDigitCh).dropWhile isWS).dropWhile (fun c => !isWS c)) =
        ((((r2.dropWhile isDigitCh).dropWhile isWS).dropWhile
          (fun c => !isWS c)).takeWhile isWS) ++ lt :: r7 := by
      conv_lhs => rw [← List.takeWhile_append_dropWhile isWS
        (((r2.dropWhile isDigitCh).dropWhile isWS).dropWhile (fun c => !isWS c))]
      rw [heq6]
    have hr7eq : r7 = r7.takeWhile isWS ++ loc := by
      conv_lhs => rw [← List.takeWhile_append_dropWhile isWS r7]
      rw [hlocdrop]
    have hparts : jsSplitWS ((r2.dropWhile isDigitCh).dropWhile isWS) =
        t :: [lt] :: splitWSAux loc [] true := by
      conv_lhs => rw [hr4eq, hr5eq, hr7eq]
      unfold jsSplitWS
      rw [splitWSAux_tok htnws]
      rw [splitWSAux_ws_start hw2ne hw2ws]
      rw [show splitWSAux (lt :: (r7.takeWhile isWS ++ loc)) [] true =
        splitWSAux (r7.takeWhile isWS ++ loc) [lt] false from by
          simp [splitWSAux, hltws]]
      rw [splitWSAux_ws_start hw3ne hw3ws]
      simp
    have hpartslen : (splitWSAux loc [] true).length ≠ 0 := by
      intro h0
      exact splitWSAux_ne_nil loc [] true (List.length_eq_zero.mp h0)
    have hsne : jsTrim line ≠ [] := by
      intro h0
      rw [h0] at hd1ne
      exact hd1ne rfl
    have hltmem : [lt] ∈ LOCATION_TYPES := by
      rcases hltok with h0 | h0 <;> subst h0 <;> decide
    simp only [validateSceneHeader, hvnum, hAfter, hparts, hh]
    rw [if_neg hsne]
    rw [if_neg hr4ne]
    rw [if_neg (show ¬((t :: [lt] :: splitWSAux loc [] true).length < 1 ∨
        (t :: [lt] :: splitWSAux loc [] true).headD [] = []) from by
      push_neg
      refine ⟨?_, ?_⟩
      · simp only [List.length_cons]; omega
      · simpa using htne)]
    rw [if_neg (show ¬((t :: [lt] :: splitWSAux loc [] true).length < 2) from by
      simp only [List.length_cons]; omega)]
    rw [if_neg (show ¬((t :: [lt] :: splitWSAux loc [] true).getD 1 [] ∉ LOCATION_TYPES) from by
      simp only [List.getD_cons_succ, List.getD_cons_zero]
      exact not_not_intro hltmem)]
    rw [if_neg (show ¬((t :: [lt] :: splitWSAux loc [] true).length < 3) from by
      simp only [List.length_cons]; omega)]
    simp
